import Mathlib

/-!
Verification of the flate2 streaming compression library (gzip/zlib/deflate
framing layers) against its specification.

Bytes are modelled as natural numbers; every arithmetic cast in the source
(`as u8`, `as u16`, `as u32`) becomes an explicit `% 2^w`.  The DEFLATE codec
and the CRC-32 digest are external collaborators of the core (spec §1, §6):
the codec is kept abstract (theorems are parameterised by a compress /
decompress pair satisfying the codec contract of §6), while the digest is
modelled concretely by the RFC 1952 CRC-32 algorithm.
-/

namespace Flate

deriving instance DecidableEq for Except

/-- Little-endian serialization of a 32-bit quantity, as produced by the
byte-shift chains in `bufread.rs::read_footer` and `write.rs::try_finish`:
`(x >> 0) as u8, (x >> 8) as u8, (x >> 16) as u8, (x >> 24) as u8`. -/
def le32 (x : Nat) : List Nat :=
  [x % 256, (x >>> 8) % 256, (x >>> 16) % 256, (x >>> 24) % 256]

/-- Little-endian parse of four bytes, as in `bufread.rs::finish`:
`(b0 as u32) | (b1 as u32) << 8 | (b2 as u32) << 16 | (b3 as u32) << 24`. -/
def parseLe32 (b0 b1 b2 b3 : Nat) : Nat :=
  b0 ||| (b1 <<< 8) ||| (b2 <<< 16) ||| (b3 <<< 24)

/-- Modelled from the spec: the CRC-32 bit step of RFC 1952 (the `crc.rs`
module consumed by the core is the incremental digest collaborator of §6). -/
def crcStepBit (r : Nat) : Nat :=
  if r % 2 = 1 then (r >>> 1) ^^^ 0xEDB88320 else r >>> 1

/-- Modelled from the spec: feed one byte into the CRC-32 register. -/
def crcByte (r b : Nat) : Nat :=
  (List.range 8).foldl (fun a _ => crcStepBit a) (r ^^^ (b % 256))

/-- Modelled from the spec: feed a byte sequence into the CRC-32 register. -/
def crcFeed (r : Nat) (bs : List Nat) : Nat :=
  bs.foldl crcByte r

/-- Modelled from the spec: the incremental digest of §6
(`update(bytes)`, `sum() -> u32`, `amount() -> u32`), i.e. the `Crc` type of
the missing `crc.rs`.  `reg` is the running CRC register (initially all ones),
`amt` the number of bytes fed, modulo `2^32`. -/
structure Crc where
  reg : Nat
  amt : Nat
deriving DecidableEq

/-- Modelled from the spec: a fresh digest. -/
def Crc.new : Crc := ⟨0xFFFFFFFF, 0⟩

/-- Modelled from the spec: `Crc::update`. -/
def Crc.update (c : Crc) (bs : List Nat) : Crc :=
  ⟨crcFeed c.reg bs, (c.amt + bs.length) % 2 ^ 32⟩

/-- Modelled from the spec: `Crc::sum`, the finalized CRC-32 value. -/
def Crc.sum (c : Crc) : Nat := c.reg ^^^ 0xFFFFFFFF

/-- Modelled from the spec: `Crc::amount`. -/
def Crc.amount (c : Crc) : Nat := c.amt

/-- CRC-32 of a whole byte sequence. -/
def crc32 (bs : List Nat) : Nat := (Crc.new.update bs).sum

/-- The compression level enumeration of `lib.rs` (`None`, `Fast`, `Best`,
`Default`). -/
inductive Compression
  | nolevel
  | fast
  | best
  | dflt
deriving DecidableEq

/-- `gz.rs`: `static FHCRC: u8 = 1 << 1`. -/
def FHCRC : Nat := 1 <<< 1

/-- `gz.rs`: `static FEXTRA: u8 = 1 << 2`. -/
def FEXTRA : Nat := 1 <<< 2

/-- `gz.rs`: `static FNAME: u8 = 1 << 3`. -/
def FNAME : Nat := 1 <<< 3

/-- `gz.rs`: `static FCOMMENT: u8 = 1 << 4`. -/
def FCOMMENT : Nat := 1 <<< 4

/-- The builder rejection on a NUL byte.  In the source the rejection is the
panic of `CString::new(..).unwrap()`; the spec's error taxonomy names this
condition `InvalidArgument` (§7). -/
inductive BuilderErr
  | invalidArgument
deriving DecidableEq

/-- Modelled from std: `CString::new` succeeds exactly when the byte sequence
contains no NUL byte; otherwise it reports the NUL-error that
`Builder::filename`/`Builder::comment` surface by panicking. -/
def cstringNew (v : List Nat) : Except BuilderErr (List Nat) :=
  if 0 ∈ v then .error .invalidArgument else .ok v

/-- `gz.rs::Builder`: header configuration for a gzip encoder.  The
`filename` and `comment` fields hold the bytes of the `CString` (no NUL). -/
structure Builder where
  extra : Option (List Nat)
  filename : Option (List Nat)
  comment : Option (List Nat)
  mtime : Nat
deriving DecidableEq

/-- `gz.rs::Builder::new`. -/
def Builder.new : Builder :=
  { extra := Option.none, filename := Option.none, comment := Option.none, mtime := 0 }

/-- `gz.rs::Builder::mtime`. -/
def Builder.setMtime (b : Builder) (m : Nat) : Builder := { b with mtime := m }

/-- `gz.rs::Builder::extra`. -/
def Builder.setExtra (b : Builder) (v : List Nat) : Builder := { b with extra := some v }

/-- `gz.rs::Builder::filename` (`CString::new(filename).unwrap()`; the
`unwrap` panic on a NUL byte is modelled as the `invalidArgument` error). -/
def Builder.setFilename (b : Builder) (v : List Nat) : Except BuilderErr Builder :=
  (cstringNew v).map fun s => { b with filename := some s }

/-- `gz.rs::Builder::comment` (same rejection as `filename`). -/
def Builder.setComment (b : Builder) (v : List Nat) : Except BuilderErr Builder :=
  (cstringNew v).map fun s => { b with comment := some s }

/-- `gz.rs`: byte 9 of the header, `match env::consts::OS`; the running
process's OS identifier is passed in as the `os` argument. -/
def osByte (os : String) : Nat :=
  match os with
  | "linux" => 3
  | "macos" => 7
  | "win32" => 0
  | _ => 255

/-- `gz.rs::Builder::into_header`: serialize the gzip header.  The source
allocates ten zero bytes, appends the optional `extra` (xlen LE16 + bytes),
`filename` (NUL-terminated) and `comment` (NUL-terminated) fields while
accumulating the flag bits, then overwrites bytes 0..9. -/
def Builder.into_header (b : Builder) (lvl : Compression) (os : String) : List Nat :=
  let flg0 : Nat := 0
  let p1 :=
    match b.extra with
    | some v => (flg0 ||| FEXTRA,
        List.replicate 10 0 ++ [v.length % 256, (v.length >>> 8) % 256] ++ v)
    | Option.none => (flg0, List.replicate 10 0)
  let p2 :=
    match b.filename with
    | some f => (p1.1 ||| FNAME, p1.2 ++ (f ++ [0]))
    | Option.none => p1
  let p3 :=
    match b.comment with
    | some cm => (p2.1 ||| FCOMMENT, p2.2 ++ (cm ++ [0]))
    | Option.none => p2
  ((((((((((p3.2.set 0 0x1f).set 1 0x8b).set 2 8).set 3 p3.1).set 4
      (b.mtime % 256)).set 5 ((b.mtime >>> 8) % 256)).set 6
      ((b.mtime >>> 16) % 256)).set 7 ((b.mtime >>> 24) % 256)).set 8
      (match lvl with
        | Compression.best => 2
        | Compression.fast => 4
        | _ => 0)).set 9 (osByte os))

/-- The parsed gzip header record of `gz.rs::Header`. -/
structure Header where
  extra : Option (List Nat)
  filename : Option (List Nat)
  comment : Option (List Nat)
  mtime : Nat
deriving DecidableEq

/-- The error kinds that the gzip framing layer can produce.  `badHeader` is
`gz.rs::bad_header()`, `corrupt` is `gz.rs::corrupt()`, `unexpectedEof` is the
`std::io` error of a failed `read_exact`, and `codecError` stands for an error
propagated from the DEFLATE codec. -/
inductive GzError
  | badHeader
  | corrupt
  | unexpectedEof
  | codecError
deriving DecidableEq

/-- `gz.rs::read_le_u16` over a list-backed reader: two bytes, little endian
(`b[0] as u16 | (b[1] as u16) << 8`); too few bytes is the `read_exact`
failure. -/
def readLe16 : List Nat → Except GzError (Nat × List Nat)
  | b0 :: b1 :: r => .ok (b0 ||| (b1 <<< 8), r)
  | _ => .error .unexpectedEof

/-- The NUL-terminated scan of `read_gz_header` for `FNAME`/`FCOMMENT`:
collect bytes up to (excluding) a NUL; at end of input the collected bytes are
returned without error.  Returns `(value, consumed bytes, rest)`; the consumed
bytes (including the NUL terminator, when found) are what the `CrcReader`
feeds to the digest. -/
def takeUntilNul : List Nat → (List Nat × List Nat × List Nat)
  | [] => ([], [], [])
  | x :: xs =>
    if x = 0 then ([], [0], xs)
    else
      let (v, u, r) := takeUntilNul xs
      (x :: v, x :: u, r)

/-- The `FEXTRA` field parse of `read_gz_header`: when the flag is set, read
`xlen` (LE16) and then `xlen` bytes.  Returns `(extra, consumed bytes, rest)`. -/
def parseExtraF (flg : Nat) (rem : List Nat) :
    Except GzError (Option (List Nat) × List Nat × List Nat) :=
  if flg &&& FEXTRA ≠ 0 then
    match rem with
    | x0 :: x1 :: r =>
      let xlen := x0 ||| (x1 <<< 8)
      if xlen ≤ r.length then
        .ok (some (r.take xlen), x0 :: x1 :: r.take xlen, r.drop xlen)
      else .error .unexpectedEof
    | _ => .error .unexpectedEof
  else .ok (Option.none, [], rem)

/-- The `FNAME`/`FCOMMENT` field parse of `read_gz_header`. -/
def parseNulStr (cond : Bool) (rem : List Nat) :
    Option (List Nat) × List Nat × List Nat :=
  if cond then
    let (v, u, r) := takeUntilNul rem
    (some v, u, r)
  else (Option.none, [], rem)

/-- The tail of `gz.rs::read_gz_header` after the fixed ten bytes: optional
`extra`, `filename`, `comment` fields, then — only when `FHCRC` is set —
a stored LE16 checksum compared against the low 16 bits of the running CRC of
every header byte read so far (`crc_reader.crc().sum() as u16`), mismatch
yielding `corrupt()`. -/
def parseGzTail (flg mtime : Nat) (rem : List Nat) (c0 : Crc) :
    Except GzError (Header × List Nat) := do
  let (extra, used1, rem1) ← parseExtraF flg rem
  let c1 := c0.update used1
  let (fname, used2, rem2) := parseNulStr (flg &&& FNAME ≠ 0) rem1
  let c2 := c1.update used2
  let (fcomm, used3, rem3) := parseNulStr (flg &&& FCOMMENT ≠ 0) rem2
  let c3 := c2.update used3
  if flg &&& FHCRC ≠ 0 then do
    let calced := c3.sum % 2 ^ 16
    let (stored, rem4) ← readLe16 rem3
    if calced ≠ stored then .error .corrupt
    else .ok ({ extra := extra, filename := fname, comment := fcomm, mtime := mtime }, rem4)
  else .ok ({ extra := extra, filename := fname, comment := fcomm, mtime := mtime }, rem3)

/-- `gz.rs::read_gz_header` over a list-backed reader.  Ten fixed bytes are
read through a fresh `CrcReader` (fewer bytes is the `read_exact` failure);
the magic pair and the compression method are checked (`bad_header()`
otherwise); `mtime` is assembled little-endian; bytes 8 (`_xfl`) and 9
(`_os`) are bound but ignored; then the optional fields are parsed. -/
def read_gz_header (l : List Nat) : Except GzError (Header × List Nat) :=
  match l with
  | id1 :: id2 :: cm :: flg :: m0 :: m1 :: m2 :: m3 :: xfl :: osb :: rest =>
    if id1 ≠ 0x1f ∨ id2 ≠ 0x8b then .error .badHeader
    else if cm ≠ 8 then .error .badHeader
    else
      let mtime := m0 ||| (m1 <<< 8) ||| (m2 <<< 16) ||| (m3 <<< 24)
      parseGzTail flg mtime rest
        (Crc.new.update [id1, id2, cm, flg, m0, m1, m2, m3, xfl, osb])
  | _ => .error .unexpectedEof

end Flate

namespace Flate

/-- Modelled from the spec: the pull transform engine `zio::read` (§4.1.1,
plus the §8 boundary case "zero-length output buffer in a read call returns 0
without advancing state") driving the opaque incremental DEFLATE codec over a
list-backed peekable source.  At this level the adapter is represented by the
stream of bytes the codec will still produce: a read into a buffer of `k`
bytes returns `min k remaining` bytes — at least one until the stream ends —
returns `0` forever once the codec has reported `StreamEnd`, and returns `0`
leaving the state unchanged when the buffer is empty.  This is the body of
both the DEFLATE and the ZLIB pull adapters of `bufread.rs` (their `read` is
exactly `zio::read(&mut self.obj, &mut self.data, buf)`). -/
structure FlateStream where
  rem : List Nat
deriving DecidableEq

/-- One `read` call of a pull adapter backed by `zio::read`. -/
def FlateStream.read (s : FlateStream) (k : Nat) : List Nat × FlateStream :=
  (s.rem.take k, ⟨s.rem.drop k⟩)

/-- Drive a pull adapter to end of stream, concatenating the chunks. -/
def FlateStream.readAll : Nat → FlateStream → Nat → List Nat
  | 0, _, _ => []
  | fuel + 1, s, k =>
    let (chunk, s') := s.read k
    if chunk = [] then [] else chunk ++ FlateStream.readAll fuel s' k

/-- Read a whole codec-produced stream through the pull adapter with a
one-byte buffer. -/
def pullAll (l : List Nat) : List Nat :=
  FlateStream.readAll (l.length + 1) ⟨l⟩ 1

/-- The `bufread.rs::GzEncoder` state: the serialized header, the shared
`pos` cursor (header phase, then reused for the footer), the `eof` flag, and
the inner `DeflateEncoder<CrcReader<R>>`.  The inner encoder is represented
by the compressed bytes it will still emit (`innerRem`) together with the
values its `CrcReader` digest reports once the whole source has been read
(`crcSum`, `crcAmt`) — the digest is only consulted by `read_footer`, which
the source reaches only after the codec has reported end of stream. -/
structure GzEncoderM where
  header : List Nat
  pos : Nat
  eof : Bool
  innerRem : List Nat
  crcSum : Nat
  crcAmt : Nat
deriving DecidableEq

/-- The eight footer bytes of `bufread.rs::GzEncoder::read_footer`:
CRC-32 sum little-endian, then byte count little-endian. -/
def GzEncoderM.footerArr (s : GzEncoderM) : List Nat :=
  le32 s.crcSum ++ le32 s.crcAmt

/-- `bufread.rs::GzEncoder::read_footer`: copy the next chunk of the 8-byte
footer (via `copy`, which transfers `min(|into|, 8 - pos)` bytes and advances
`pos`); once `pos == 8` every call returns 0 bytes. -/
def GzEncoderM.read_footer (s : GzEncoderM) (k : Nat) : List Nat × GzEncoderM :=
  if s.pos = 8 then ([], s)
  else
    let m := min k (8 - s.pos)
    (((s.footerArr).drop s.pos).take m, { s with pos := s.pos + m })

/-- `bufread.rs::GzEncoder::read` (`impl Read`): footer phase when `eof`;
otherwise copy header bytes while `pos < |header|` (returning early when the
buffer is filled), then delegate the remaining buffer to the inner encoder;
a zero-byte answer from the inner encoder sets `eof`, resets `pos` and emits
the first footer chunk.  The returned list is what the caller observes, i.e.
the first `n` bytes of the buffer where `n` is the returned count — in the
code path where header bytes were copied and the inner encoder hits end of
stream in the same call, the count covers only the footer bytes. -/
def GzEncoderM.read (s : GzEncoderM) (k : Nat) : List Nat × GzEncoderM :=
  if s.eof then s.read_footer k
  else if s.pos < s.header.length then
    let m1 := min k (s.header.length - s.pos)
    let part1 := ((s.header).drop s.pos).take m1
    let s1 := { s with pos := s.pos + m1 }
    if m1 = k then (part1, s1)
    else
      let k2 := k - m1
      let chunk := s1.innerRem.take k2
      if chunk = [] then
        let s2 := { s1 with eof := true, pos := 0 }
        let (f, s3) := s2.read_footer k2
        ((part1 ++ f).take f.length, s3)
      else (part1 ++ chunk, { s1 with innerRem := s1.innerRem.drop k2 })
  else
    let chunk := s.innerRem.take k
    if chunk = [] then
      let s2 := { s with eof := true, pos := 0 }
      s2.read_footer k
    else (chunk, { s with innerRem := s.innerRem.drop k })

/-- `gz.rs::Builder::buf_read`: a fresh gzip pull encoder (`pos = 0`,
`eof = false`), given the serialized header and the inner encoder data. -/
def GzEncoderM.init (hdr compressed : List Nat) (sum amt : Nat) : GzEncoderM :=
  { header := hdr, pos := 0, eof := false, innerRem := compressed,
    crcSum := sum, crcAmt := amt }

/-- Drive a gzip pull encoder to end of stream, concatenating the chunks. -/
def GzEncoderM.readAll : Nat → GzEncoderM → Nat → List Nat
  | 0, _, _ => []
  | fuel + 1, s, k =>
    let (chunk, s') := s.read k
    if chunk = [] then [] else chunk ++ GzEncoderM.readAll fuel s' k

/-- The `bufread.rs::GzDecoder` state: the inner
`CrcReader<DeflateDecoder<R>>` represented by the plaintext the codec will
still emit (`plain`), the underlying bytes beyond the member's compressed
payload (`rest`), the running digest over the plaintext emitted so far, the
parsed header, and the `finished` flag. -/
structure GzDecoderM where
  plain : List Nat
  rest : List Nat
  crc : Crc
  header : Header
  finished : Bool
deriving DecidableEq

/-- `bufread.rs::GzDecoder::new`: parse the gzip header, then wrap the rest
of the stream in `CrcReader::new(DeflateDecoder::new(r))`.  The lazy
incremental decompression of the payload is represented by splitting the
remaining bytes with the codec up front: a stream whose payload the codec
rejects is modelled as failing here (`codecError`) rather than at the first
`read` that would surface the codec error. -/
def GzDecoderM.new (inflate : List Nat → Option (List Nat × List Nat))
    (l : List Nat) : Except GzError GzDecoderM := do
  let (hdr, rem) ← read_gz_header l
  match inflate rem with
  | some (v, rest) =>
    .ok { plain := v, rest := rest, crc := Crc.new, header := hdr, finished := false }
  | Option.none => .error .codecError

/-- `bufread.rs::GzDecoder::finish`: a no-op when already finished; otherwise
read exactly 8 bytes directly from the underlying reader (fewer available
means `corrupt()`), parse the two little-endian fields, and compare them
against the digest's `sum()` and `amount()`; either mismatch is `corrupt()`;
on success the `finished` flag is set. -/
def GzDecoderM.finish (s : GzDecoderM) : Except GzError GzDecoderM :=
  if s.finished then .ok s
  else
    match s.rest with
    | b0 :: b1 :: b2 :: b3 :: b4 :: b5 :: b6 :: b7 :: r =>
      let crcv := parseLe32 b0 b1 b2 b3
      let amt := parseLe32 b4 b5 b6 b7
      if crcv ≠ s.crc.sum then .error .corrupt
      else if amt ≠ s.crc.amount then .error .corrupt
      else .ok { s with rest := r, finished := true }
    | _ => .error .corrupt

/-- `bufread.rs::GzDecoder::read` (`impl Read`): delegate to the inner
`CrcReader` (which feeds every emitted byte to the digest); a zero-byte
answer triggers `finish` and then reports 0 bytes. -/
def GzDecoderM.read (s : GzDecoderM) (k : Nat) :
    Except GzError (List Nat × GzDecoderM) :=
  let chunk := s.plain.take k
  if chunk = [] then do
    let s' ← s.finish
    .ok ([], s')
  else .ok (chunk, { s with plain := s.plain.drop k, crc := s.crc.update chunk })

/-- Drive a gzip pull decoder until a read reports 0 bytes. -/
def GzDecoderM.readAll : Nat → GzDecoderM → Nat → Except GzError (List Nat × GzDecoderM)
  | 0, _, _ => .error .codecError
  | fuel + 1, s, k => do
    let (chunk, s') ← s.read k
    if chunk = [] then .ok ([], s')
    else do
      let (out, s2) ← GzDecoderM.readAll fuel s' k
      .ok (chunk ++ out, s2)

end Flate

namespace Flate

/-- The `bufread.rs::MultiGzDecoder` state; the fields are exactly those of
`GzDecoderM` (the two structures are identical in the source). -/
structure MultiGzM where
  plain : List Nat
  rest : List Nat
  crc : Crc
  header : Header
  finished : Bool
deriving DecidableEq

/-- `bufread.rs::MultiGzDecoder::new`: identical to `GzDecoder::new`. -/
def MultiGzM.new (inflate : List Nat → Option (List Nat × List Nat))
    (l : List Nat) : Except GzError MultiGzM := do
  let (hdr, rem) ← read_gz_header l
  match inflate rem with
  | some (v, rest) =>
    .ok { plain := v, rest := rest, crc := Crc.new, header := hdr, finished := false }
  | Option.none => .error .codecError

/-- `bufread.rs::MultiGzDecoder::finish_member`: verify the finished member's
8-byte trailer exactly as `GzDecoder::finish` does; then `fill_buf` the
underlying source — if it is empty, set `finished` and report 0; otherwise
parse the next member's header from the underlying source, replace the
retained header, reset the digest (`CrcReader::reset`) and the DEFLATE state
(`reset_data`) in place, and report the number of buffered bytes (positive).
The in-place codec reset is represented by re-splitting the remaining bytes
with the codec (`inflate`); a stream the codec rejects is `codecError`. -/
def MultiGzM.finish_member (inflate : List Nat → Option (List Nat × List Nat))
    (s : MultiGzM) : Except GzError (Nat × MultiGzM) :=
  if s.finished then .ok (0, s)
  else
    match s.rest with
    | b0 :: b1 :: b2 :: b3 :: b4 :: b5 :: b6 :: b7 :: r =>
      let crcv := parseLe32 b0 b1 b2 b3
      let amt := parseLe32 b4 b5 b6 b7
      if crcv ≠ s.crc.sum then .error .corrupt
      else if amt ≠ s.crc.amount then .error .corrupt
      else if r = [] then .ok (0, { s with rest := r, finished := true })
      else do
        let (hdr2, rem2) ← read_gz_header r
        match inflate rem2 with
        | some (v2, rest2) =>
          .ok (r.length, { plain := v2, rest := rest2, crc := Crc.new,
                           header := hdr2, finished := false })
        | Option.none => .error .codecError
    | _ => .error .corrupt

/-- `bufread.rs::MultiGzDecoder::read` (`impl Read`): delegate to the inner
`CrcReader`; on a zero-byte answer run `finish_member` — 0 remaining bytes
means end of the whole stream (report 0), otherwise recurse into `read`.
The recursion is fuelled; every recursion step strictly shrinks the
underlying stream, so any fuel past the stream length is enough. -/
def MultiGzM.read (inflate : List Nat → Option (List Nat × List Nat)) :
    Nat → MultiGzM → Nat → Except GzError (List Nat × MultiGzM)
  | 0, _, _ => .error .codecError
  | fuel + 1, s, k =>
    let chunk := s.plain.take k
    if chunk = [] then do
      let (n, s') ← s.finish_member inflate
      if n = 0 then .ok ([], s')
      else MultiGzM.read inflate fuel s' k
    else .ok (chunk, { s with plain := s.plain.drop k, crc := s.crc.update chunk })

/-- Drive a multi-member gzip pull decoder until a read reports 0 bytes. -/
def MultiGzM.readAll (inflate : List Nat → Option (List Nat × List Nat)) :
    Nat → MultiGzM → Nat → Except GzError (List Nat × MultiGzM)
  | 0, _, _ => .error .codecError
  | fuel + 1, s, k => do
    let (chunk, s') ← MultiGzM.read inflate (fuel + 1) s k
    if chunk = [] then .ok ([], s')
    else do
      let (out, s2) ← MultiGzM.readAll inflate fuel s' k
      .ok (chunk ++ out, s2)

/-- Modelled from the spec: the push transform engine `zio::Writer`
(§4.1.2–4.1.4) over a list-backed sink that accepts every byte offered, at
the whole-stream level: `write` feeds bytes to the codec (`fed`), and
`finish` drives the codec to end of stream, delivering the codec's output to
the sink in codec-emission order (the fixed-size scratch buffer mechanics are
collapsed into the single delivery). -/
structure WriterM where
  out : List Nat
  fed : List Nat
  finished : Bool
deriving DecidableEq

/-- Modelled from the spec: a fresh push adapter over an empty sink. -/
def WriterM.init : WriterM := ⟨[], [], false⟩

/-- Modelled from the spec: `Writer::write` (the sink accepts everything, so
the whole buffer is consumed). -/
def WriterM.write (w : WriterM) (buf : List Nat) : WriterM :=
  { w with fed := w.fed ++ buf }

/-- Modelled from the spec: `Writer::finish`, with `codec` the whole-stream
function of the owned codec (compression, or decompression to end of
stream); a codec failure is the propagated `codecError`. -/
def WriterM.finishWith (codec : List Nat → Option (List Nat)) (w : WriterM) :
    Except GzError WriterM :=
  match codec w.fed with
  | some o => .ok { w with out := w.out ++ o, finished := true }
  | Option.none => .error .codecError

/-- The `write.rs::GzEncoder` state: the push writer holding the raw DEFLATE
codec, the digest over the bytes written so far, the trailer progress
counter, and the not-yet-written header bytes. -/
structure GzWriterM where
  inner : WriterM
  crc : Crc
  crcBytesWritten : Nat
  header : List Nat
deriving DecidableEq

/-- `gz.rs::Builder::write`: a fresh gzip push encoder. -/
def GzWriterM.init (b : Builder) (lvl : Compression) (os : String) : GzWriterM :=
  { inner := WriterM.init, crc := Crc.new, crcBytesWritten := 0,
    header := b.into_header lvl os }

/-- `write.rs::GzEncoder::write_header`: drain the header bytes directly to
the sink (the list-backed sink accepts them all in one call). -/
def GzWriterM.write_header (s : GzWriterM) : GzWriterM :=
  { s with inner := { s.inner with out := s.inner.out ++ s.header }, header := [] }

/-- `write.rs::GzEncoder::write` (`impl Write`): `assert_eq!(crc_bytes_written, 0)`
(writing after `finish` panics — modelled as `Option.none`), write the header
lazily, feed the buffer to the codec, and update the digest with the consumed
bytes. -/
def GzWriterM.write (s : GzWriterM) (buf : List Nat) : Option GzWriterM :=
  if s.crcBytesWritten ≠ 0 then Option.none
  else
    let s1 := s.write_header
    some { s1 with inner := s1.inner.write buf, crc := s1.crc.update buf }

/-- `write.rs::GzEncoder::try_finish`: write the header (for the empty-input
case), finish the inner codec, then write the 8 trailer bytes (CRC-32 sum
LE32, then `amount` LE32) directly to the sink until all 8 are out. -/
def GzWriterM.try_finish (deflate : List Nat → List Nat) (s : GzWriterM) : GzWriterM :=
  let s1 := s.write_header
  let inner1 : WriterM :=
    { out := s1.inner.out ++ deflate s1.inner.fed, fed := s1.inner.fed,
      finished := true }
  if s1.crcBytesWritten < 8 then
    { s1 with
      inner := { inner1 with
        out := inner1.out ++ (le32 s1.crc.sum ++ le32 s1.crc.amount) },
      crcBytesWritten := 8 }
  else { s1 with inner := inner1 }

end Flate

namespace Flate

/-- A concrete incremental-codec instance used to witness the codec contract
of §6: self-delimiting stored "compression" (a unary length prefix — one `1`
byte per input byte, a `0` marker — followed by the bytes verbatim).  It
stands in for the opaque DEFLATE engine in witnesses; the claims themselves
are proved for every codec satisfying the contract. -/
def storedDeflate (_lvl : Compression) (v : List Nat) : List Nat :=
  List.replicate v.length 1 ++ 0 :: v

/-- Count the unary length prefix up to its `0` marker. -/
def storedCount : List Nat → Option (Nat × List Nat)
  | [] => Option.none
  | x :: xs =>
    if x = 0 then some (0, xs)
    else (storedCount xs).map fun p => (p.1 + 1, p.2)

/-- The witness decompressor: parse the length, take that many bytes, and
leave the trailing bytes unconsumed (the §8 trailing-data tolerance). -/
def storedInflate (l : List Nat) : Option (List Nat × List Nat) :=
  (storedCount l).bind fun p =>
    if p.1 ≤ p.2.length then some (p.2.take p.1, p.2.drop p.1) else Option.none

/-- `bufread.rs::DeflateEncoder`/`ZlibEncoder` driven to end of stream: the
pull encoder emits exactly the codec's output stream. -/
def encodeFlateRead (deflateF : Compression → List Nat → List Nat)
    (lvl : Compression) (v : List Nat) : List Nat :=
  pullAll (deflateF lvl v)

/-- `bufread.rs::DeflateDecoder`/`ZlibDecoder` driven to end of stream over
the given source bytes. -/
def decodeFlateRead (inflateF : List Nat → Option (List Nat × List Nat))
    (src : List Nat) : Except GzError (List Nat) :=
  match inflateF src with
  | some (v, _) => .ok (pullAll v)
  | Option.none => .error .codecError

/-- `write.rs::DeflateEncoder`/`ZlibEncoder`: write the whole input, then
`finish`; the sink contents. -/
def encodeFlateWrite (deflateF : Compression → List Nat → List Nat)
    (lvl : Compression) (v : List Nat) : List Nat :=
  match (WriterM.init.write v).finishWith (fun f => some (deflateF lvl f)) with
  | .ok w => w.out
  | .error _ => []

/-- `write.rs::DeflateDecoder`/`ZlibDecoder`: write the whole compressed
stream, then `finish`; the sink contents. -/
def decodeFlateWrite (inflateF : List Nat → Option (List Nat × List Nat))
    (src : List Nat) : Except GzError (List Nat) :=
  (WriterM.init.write src |>.finishWith
    (fun f => (inflateF f).map Prod.fst)).map WriterM.out

/-- `bufread.rs::GzEncoder` (built by `gz::Builder::buf_read`) driven to end
of stream with a one-byte buffer: header bytes, compressed payload, footer.
The inner `DeflateEncoder<CrcReader<R>>` is instantiated with the codec's
output for the source bytes `v` and the digest values the `CrcReader`
reports after reading all of `v`. -/
def gzEncodeRead (deflateF : Compression → List Nat → List Nat) (b : Builder)
    (lvl : Compression) (os : String) (v : List Nat) : List Nat :=
  let h := b.into_header lvl os
  let c := deflateF lvl v
  GzEncoderM.readAll (h.length + c.length + 9)
    (GzEncoderM.init h c (crc32 v) (v.length % 2 ^ 32)) 1

/-- `bufread.rs::GzDecoder` driven to end of stream with a one-byte buffer:
parse the header, decompress the payload, verify the trailer. -/
def gzDecodeRead (inflateF : List Nat → Option (List Nat × List Nat))
    (src : List Nat) : Except GzError (List Nat) := do
  let s ← GzDecoderM.new inflateF src
  let (o, _) ← GzDecoderM.readAll (s.plain.length + 2) s 1
  .ok o

/-- `write.rs::GzEncoder` (built by `gz::Builder::write`): write the whole
input, then `try_finish`; the sink contents. -/
def gzEncodeWrite (deflateF : Compression → List Nat → List Nat) (b : Builder)
    (lvl : Compression) (os : String) (v : List Nat) : List Nat :=
  match (GzWriterM.init b lvl os).write v with
  | some s => (s.try_finish (deflateF lvl)).inner.out
  | Option.none => []

/-- `bufread.rs::MultiGzDecoder` driven to end of stream with a one-byte
buffer (explicit fuel: the member transitions strictly consume the
underlying stream, so any fuel past the total plaintext plus stream length
is enough). -/
def multiGzDecodeRead (inflateF : List Nat → Option (List Nat × List Nat))
    (fuel : Nat) (src : List Nat) : Except GzError (List Nat) := do
  let s ← MultiGzM.new inflateF src
  let (o, _) ← MultiGzM.readAll inflateF fuel s 1
  .ok o

/-- The `crazy` chain of `lib.rs`'s test: gzip-encode, deflate-encode,
zlib-encode, then zlib-decode, deflate-decode, gzip-decode, all on the
read side. -/
def crazyChain (deflateF : Compression → List Nat → List Nat)
    (inflateF : List Nat → Option (List Nat × List Nat))
    (zlibDef : Compression → List Nat → List Nat)
    (zlibInf : List Nat → Option (List Nat × List Nat))
    (lvl : Compression) (os : String) (v : List Nat) :
    Except GzError (List Nat) := do
  let a := gzEncodeRead deflateF Builder.new lvl os v
  let b := encodeFlateRead deflateF lvl a
  let c := encodeFlateRead zlibDef lvl b
  let d ← decodeFlateRead zlibInf c
  let e ← decodeFlateRead inflateF d
  gzDecodeRead inflateF e

end Flate

namespace Flate

theorem lor_shiftLeft_eq_add {a : Nat} (b k : Nat) (h : a < 2 ^ k) :
    a ||| (b <<< k) = 2 ^ k * b + a := by
  apply Nat.eq_of_testBit_eq
  intro j
  rw [Nat.testBit_lor, Nat.testBit_shiftLeft, Nat.testBit_mul_pow_two_add b h j]
  by_cases hj : j < k
  · simp [hj, Nat.not_le.mpr hj]
  · have ha : a.testBit j = false :=
      Nat.testBit_lt_two_pow
        (lt_of_lt_of_le h (Nat.pow_le_pow_right (by norm_num) (Nat.not_lt.mp hj)))
    simp [hj, Nat.not_lt.mp hj, ha]

theorem parseLe32_le32 {x : Nat} (h : x < 2 ^ 32) :
    parseLe32 (x % 256) ((x >>> 8) % 256) ((x >>> 16) % 256) ((x >>> 24) % 256) = x := by
  unfold parseLe32
  have h8 : (2 : Nat) ^ 8 = 256 := by norm_num
  have e1 : x % 256 ||| ((x >>> 8) % 256) <<< 8 = 2 ^ 8 * ((x >>> 8) % 256) + x % 256 :=
    lor_shiftLeft_eq_add _ 8 (by omega)
  have b1 : 2 ^ 8 * ((x >>> 8) % 256) + x % 256 < 2 ^ 16 := by
    have := Nat.mod_lt (x >>> 8) (y := 256) (by norm_num)
    have := Nat.mod_lt x (y := 256) (by norm_num)
    omega
  have e2 : (2 ^ 8 * ((x >>> 8) % 256) + x % 256) ||| ((x >>> 16) % 256) <<< 16 =
      2 ^ 16 * ((x >>> 16) % 256) + (2 ^ 8 * ((x >>> 8) % 256) + x % 256) :=
    lor_shiftLeft_eq_add _ 16 b1
  have b2 : 2 ^ 16 * ((x >>> 16) % 256) + (2 ^ 8 * ((x >>> 8) % 256) + x % 256) < 2 ^ 24 := by
    have := Nat.mod_lt (x >>> 16) (y := 256) (by norm_num)
    omega
  have e3 : (2 ^ 16 * ((x >>> 16) % 256) + (2 ^ 8 * ((x >>> 8) % 256) + x % 256)) |||
      ((x >>> 24) % 256) <<< 24 =
      2 ^ 24 * ((x >>> 24) % 256) +
        (2 ^ 16 * ((x >>> 16) % 256) + (2 ^ 8 * ((x >>> 8) % 256) + x % 256)) :=
    lor_shiftLeft_eq_add _ 24 b2
  rw [e1, e2, e3]
  rw [Nat.shiftRight_eq_div_pow, Nat.shiftRight_eq_div_pow, Nat.shiftRight_eq_div_pow]
  norm_num
  omega

theorem crcStepBit_lt {r : Nat} (h : r < 2 ^ 32) : crcStepBit r < 2 ^ 32 := by
  unfold crcStepBit
  have h1 : r >>> 1 < 2 ^ 32 := by
    rw [Nat.shiftRight_eq_div_pow]; omega
  split
  · exact Nat.xor_lt_two_pow h1 (by norm_num)
  · exact h1

theorem crcByte_lt {r : Nat} (b : Nat) (h : r < 2 ^ 32) : crcByte r b < 2 ^ 32 := by
  unfold crcByte
  have h0 : r ^^^ (b % 256) < 2 ^ 32 :=
    Nat.xor_lt_two_pow h (lt_trans (Nat.mod_lt _ (by norm_num)) (by norm_num))
  generalize (8 : Nat) = n
  induction n with
  | zero => simpa using h0
  | succ m ih =>
    rw [List.range_succ, List.foldl_append]
    exact crcStepBit_lt ih

theorem crcFeed_lt {r : Nat} (bs : List Nat) (h : r < 2 ^ 32) : crcFeed r bs < 2 ^ 32 := by
  induction bs generalizing r with
  | nil => simpa [crcFeed] using h
  | cons x xs ih => exact ih (crcByte_lt x h)

/-- Well-formedness of a digest: both fields are 32-bit values.  Preserved by
`update`, true of `Crc.new`. -/
def Crc.WF (c : Crc) : Prop := c.reg < 2 ^ 32 ∧ c.amt < 2 ^ 32

theorem Crc.wf_new : Crc.new.WF := by constructor <;> norm_num [Crc.new]

theorem Crc.wf_update {c : Crc} (bs : List Nat) (h : c.WF) : (c.update bs).WF := by
  refine ⟨crcFeed_lt bs h.1, ?_⟩
  exact Nat.mod_lt _ (by norm_num)

theorem Crc.sum_lt {c : Crc} (h : c.WF) : c.sum < 2 ^ 32 :=
  Nat.xor_lt_two_pow h.1 (by norm_num)

theorem Crc.amount_lt {c : Crc} (h : c.WF) : c.amount < 2 ^ 32 := h.2

theorem Crc.update_append (c : Crc) (a b : List Nat) :
    (c.update a).update b = c.update (a ++ b) := by
  unfold Crc.update
  simp [crcFeed, List.foldl_append]
  omega

theorem Crc.update_nil {c : Crc} (h : c.WF) : c.update [] = c := by
  unfold Crc.update
  simp [crcFeed]
  cases c
  simp only [Crc.mk.injEq, true_and]
  exact Nat.mod_eq_of_lt h.2

theorem crc32_lt (v : List Nat) : crc32 v < 2 ^ 32 :=
  Crc.sum_lt (Crc.wf_update v Crc.wf_new)

theorem storedCount_prefix (n : Nat) (rest : List Nat) :
    storedCount (List.replicate n 1 ++ 0 :: rest) = some (n, rest) := by
  induction n with
  | zero => simp [storedCount]
  | succ m ih => simp [List.replicate_succ, storedCount, ih]

theorem storedInflate_storedDeflate (lvl : Compression) (v rest : List Nat) :
    storedInflate (storedDeflate lvl v ++ rest) = some (v, rest) := by
  unfold storedDeflate storedInflate
  rw [List.append_assoc, List.cons_append, storedCount_prefix]
  simp [List.take_left, List.drop_left]

theorem storedDeflate_ne_nil (lvl : Compression) (v : List Nat) :
    storedDeflate lvl v ≠ [] := by
  unfold storedDeflate
  cases v <;> simp

theorem FlateStream.readAll_eq (fuel : Nat) (l : List Nat)
    (hf : l.length < fuel) : FlateStream.readAll fuel ⟨l⟩ 1 = l := by
  induction l generalizing fuel with
  | nil =>
    match fuel, hf with
    | f + 1, _ => simp [FlateStream.readAll, FlateStream.read]
  | cons x xs ih =>
    match fuel, hf with
    | f + 1, hf =>
      have hlen : xs.length < f := by simpa using hf
      simp [FlateStream.readAll, FlateStream.read, ih f hlen]

theorem pullAll_eq (l : List Nat) : pullAll l = l :=
  FlateStream.readAll_eq _ l (by omega)

end Flate

namespace Flate

theorem GzEncoderM.footerArr_length (s : GzEncoderM) : s.footerArr.length = 8 := by
  simp [GzEncoderM.footerArr, le32]

theorem GzEncoderM.readAll_step (f : Nat) (s : GzEncoderM) (k : Nat) :
    GzEncoderM.readAll (f + 1) s k =
      (if (s.read k).1 = [] then []
       else (s.read k).1 ++ GzEncoderM.readAll f (s.read k).2 k) := by
  rcases h : s.read k with ⟨chunk, s'⟩
  simp [GzEncoderM.readAll, h]

theorem GzEncoderM.read_eof_done (s : GzEncoderM) (k : Nat) (he : s.eof = true)
    (h8 : s.pos = 8) : s.read k = ([], s) := by
  simp [GzEncoderM.read, he, GzEncoderM.read_footer, h8]

theorem GzEncoderM.read_eof_step (s : GzEncoderM) (k : Nat) (he : s.eof = true)
    (h8 : s.pos ≠ 8) :
    s.read k = ((s.footerArr.drop s.pos).take (min k (8 - s.pos)),
      { s with pos := s.pos + min k (8 - s.pos) }) := by
  simp [GzEncoderM.read, he, GzEncoderM.read_footer, h8]

theorem GzEncoderM.read_payload_chunk (s : GzEncoderM) (k : Nat) (he : s.eof = false)
    (hp : ¬ s.pos < s.header.length) (hne : s.innerRem.take k ≠ []) :
    s.read k = (s.innerRem.take k, { s with innerRem := s.innerRem.drop k }) := by
  simp [GzEncoderM.read, he, hp, hne]

theorem GzEncoderM.read_payload_end (s : GzEncoderM) (k : Nat) (he : s.eof = false)
    (hp : ¬ s.pos < s.header.length) (hnil : s.innerRem.take k = []) :
    s.read k = (s.footerArr.take (min k 8), { s with eof := true, pos := min k 8 }) := by
  simp [GzEncoderM.read, he, hp, hnil, GzEncoderM.read_footer, GzEncoderM.footerArr]

theorem GzEncoderM.readAll_footer (fuel : Nat) (s : GzEncoderM) (k : Nat)
    (he : s.eof = true) (hp : s.pos ≤ 8) (hk : 1 ≤ k) (hf : 9 - s.pos ≤ fuel) :
    GzEncoderM.readAll fuel s k = s.footerArr.drop s.pos := by
  induction fuel generalizing s with
  | zero => omega
  | succ f ih =>
    by_cases h8 : s.pos = 8
    · have hdrop : s.footerArr.drop s.pos = [] :=
        List.drop_eq_nil_of_le (by rw [s.footerArr_length]; omega)
      rw [GzEncoderM.readAll_step, s.read_eof_done k he h8, hdrop]
      simp
    · have hm1 : 1 ≤ min k (8 - s.pos) := by omega
      have hchunklen : ((s.footerArr.drop s.pos).take (min k (8 - s.pos))).length =
          min k (8 - s.pos) := by
        simp only [List.length_take, List.length_drop, GzEncoderM.footerArr_length]
        omega
      have hne : (s.footerArr.drop s.pos).take (min k (8 - s.pos)) ≠ [] := by
        intro hcon
        rw [hcon] at hchunklen
        simp only [List.length_nil] at hchunklen
        omega
      have ihs : GzEncoderM.readAll f { s with pos := s.pos + min k (8 - s.pos) } k =
          s.footerArr.drop (s.pos + min k (8 - s.pos)) := by
        have := ih { s with pos := s.pos + min k (8 - s.pos) } (by simpa using he)
          (by simp <;> omega) (by simp <;> omega)
        simpa [GzEncoderM.footerArr] using this
      rw [GzEncoderM.readAll_step, s.read_eof_step k he h8]
      simp only [if_neg hne]
      rw [ihs]
      have hdd : s.footerArr.drop (s.pos + min k (8 - s.pos)) =
          (s.footerArr.drop s.pos).drop (min k (8 - s.pos)) :=
        (List.drop_drop _ _ _).symm
      rw [hdd, List.take_append_drop]

theorem GzEncoderM.readAll_payload (fuel : Nat) (s : GzEncoderM) (k : Nat)
    (he : s.eof = false) (hpos : s.pos = s.header.length) (hk : 1 ≤ k)
    (hf : s.innerRem.length + 9 ≤ fuel) :
    GzEncoderM.readAll fuel s k = s.innerRem ++ s.footerArr := by
  induction fuel generalizing s with
  | zero => omega
  | succ f ih =>
    have hnp : ¬ s.pos < s.header.length := by omega
    by_cases hnil : s.innerRem = []
    · have hnil' : s.innerRem.take k = [] := by simp [hnil]
      have hm1 : 1 ≤ min k 8 := by omega
      have hne : s.footerArr.take (min k 8) ≠ [] := by
        intro hcon
        have := congrArg List.length hcon
        simp [s.footerArr_length] at this
        omega
      have ihs : GzEncoderM.readAll f { s with eof := true, pos := min k 8 } k =
          s.footerArr.drop (min k 8) := by
        have := GzEncoderM.readAll_footer f { s with eof := true, pos := min k 8 } k
          (by simp) (by simp <;> omega) hk (by simp <;> omega)
        simpa [GzEncoderM.footerArr] using this
      rw [GzEncoderM.readAll_step, s.read_payload_end k he hnp hnil']
      simp only [if_neg hne]
      rw [ihs, List.take_append_drop, hnil, List.nil_append]
    · have hlen0 : 0 < s.innerRem.length := List.length_pos.mpr hnil
      have hne : s.innerRem.take k ≠ [] := by
        intro hcon
        have hlc := congrArg List.length hcon
        simp only [List.length_take, List.length_nil] at hlc
        omega
      have ihs : GzEncoderM.readAll f { s with innerRem := s.innerRem.drop k } k =
          s.innerRem.drop k ++ s.footerArr := by
        have := ih { s with innerRem := s.innerRem.drop k } (by simpa using he)
          (by simpa using hpos) (by simp <;> omega)
        simpa [GzEncoderM.footerArr] using this
      rw [GzEncoderM.readAll_step, s.read_payload_chunk k he hnp hne]
      simp only [if_neg hne]
      rw [ihs, ← List.append_assoc, List.take_append_drop]

theorem GzEncoderM.readAll_main (fuel : Nat) (s : GzEncoderM) (k : Nat)
    (he : s.eof = false) (hpos : s.pos ≤ s.header.length) (hc : s.innerRem ≠ [])
    (hk : 1 ≤ k)
    (hf : (s.header.length - s.pos) + s.innerRem.length + 9 ≤ fuel) :
    GzEncoderM.readAll fuel s k =
      s.header.drop s.pos ++ s.innerRem ++ s.footerArr := by
  induction fuel generalizing s with
  | zero => omega
  | succ f ih =>
    by_cases hdone : s.pos = s.header.length
    · have hdrop : s.header.drop s.pos = [] :=
        List.drop_eq_nil_of_le (by omega)
      rw [hdrop, List.nil_append]
      exact GzEncoderM.readAll_payload (f + 1) s k he hdone hk (by omega)
    · have hlt : s.pos < s.header.length := by omega
      by_cases hm1k : min k (s.header.length - s.pos) = k
      · -- the header chunk fills the whole buffer
        have hke : k ≤ s.header.length - s.pos := by omega
        have hstep : s.read k =
            (((s.header.drop s.pos).take k), { s with pos := s.pos + k }) := by
          simp [GzEncoderM.read, he, hlt, hm1k]
        have hne : (s.header.drop s.pos).take k ≠ [] := by
          intro hcon
          have hlc := congrArg List.length hcon
          simp only [List.length_take, List.length_drop, List.length_nil] at hlc
          omega
        have ihs : GzEncoderM.readAll f { s with pos := s.pos + k } k =
            s.header.drop (s.pos + k) ++ s.innerRem ++ s.footerArr := by
          have := ih { s with pos := s.pos + k } (by simpa using he)
            (by simp <;> omega) (by simpa using hc) (by simp <;> omega)
          simpa [GzEncoderM.footerArr] using this
        rw [GzEncoderM.readAll_step, hstep]
        simp only [if_neg hne]
        rw [ihs]
        have hdd : s.header.drop (s.pos + k) = (s.header.drop s.pos).drop k :=
          (List.drop_drop _ _ _).symm
        rw [hdd, ← List.append_assoc, ← List.append_assoc, List.take_append_drop]
      · -- the header is exhausted mid-call and the codec fills the tail
        have hm1 : min k (s.header.length - s.pos) = s.header.length - s.pos := by
          omega
        have hk2 : 1 ≤ k - (s.header.length - s.pos) := by omega
        have hlen0 : 0 < s.innerRem.length := List.length_pos.mpr hc
        have hchne : s.innerRem.take (k - (s.header.length - s.pos)) ≠ [] := by
          intro hcon
          have hlc := congrArg List.length hcon
          simp only [List.length_take, List.length_nil] at hlc
          omega
        have hkne : ¬ (s.header.length - s.pos = k) := by omega
        have hstep : s.read k =
            ((s.header.drop s.pos).take (s.header.length - s.pos) ++
               s.innerRem.take (k - (s.header.length - s.pos)),
             { s with pos := s.pos + (s.header.length - s.pos),
                      innerRem := s.innerRem.drop (k - (s.header.length - s.pos)) }) := by
          simp [GzEncoderM.read, he, hlt, hm1, hkne, hchne]
        have htake : (s.header.drop s.pos).take (s.header.length - s.pos) =
            s.header.drop s.pos :=
          List.take_of_length_le (by simp)
        have hne2 : (s.header.drop s.pos).take (s.header.length - s.pos) ++
            s.innerRem.take (k - (s.header.length - s.pos)) ≠ [] := by
          intro hcon
          exact hchne (List.append_eq_nil.mp hcon).2
        have ihs : GzEncoderM.readAll f
            { s with pos := s.pos + (s.header.length - s.pos),
                     innerRem := s.innerRem.drop (k - (s.header.length - s.pos)) } k =
            s.innerRem.drop (k - (s.header.length - s.pos)) ++ s.footerArr := by
          have := GzEncoderM.readAll_payload f
            { s with pos := s.pos + (s.header.length - s.pos),
                     innerRem := s.innerRem.drop (k - (s.header.length - s.pos)) } k
            (by simpa using he) (by simp <;> omega) hk (by simp <;> omega)
          simpa [GzEncoderM.footerArr] using this
        rw [GzEncoderM.readAll_step, hstep]
        simp only [if_neg hne2]
        rw [ihs, htake]
        rw [List.append_assoc, ← List.append_assoc (s.innerRem.take _),
          List.take_append_drop, ← List.append_assoc]

end Flate

namespace Flate

theorem GzDecoderM.read_chunk (s : GzDecoderM) (k : Nat)
    (hne : s.plain.take k ≠ []) :
    s.read k = .ok (s.plain.take k,
      { s with plain := s.plain.drop k, crc := s.crc.update (s.plain.take k) }) := by
  simp [GzDecoderM.read, hne]

theorem GzDecoderM.read_eofCall (s : GzDecoderM) (k : Nat)
    (hp : s.plain.take k = []) :
    s.read k = (s.finish).bind fun s' => .ok ([], s') := by
  simp only [GzDecoderM.read, hp]
  rcases s.finish with e | s' <;> rfl

theorem GzDecoderM.finish_finished (s : GzDecoderM) (hf : s.finished = true) :
    s.finish = .ok s := by
  simp [GzDecoderM.finish, hf]

theorem GzDecoderM.read_after_done (s : GzDecoderM) (k : Nat)
    (hp : s.plain = []) (hf : s.finished = true) : s.read k = .ok ([], s) := by
  rw [GzDecoderM.read_eofCall s k (by simp [hp]), GzDecoderM.finish_finished s hf]
  rfl

theorem GzDecoderM.finish_ok (s : GzDecoderM) (hf : s.finished = false)
    (b0 b1 b2 b3 b4 b5 b6 b7 : Nat) (r : List Nat)
    (hrest : s.rest = b0 :: b1 :: b2 :: b3 :: b4 :: b5 :: b6 :: b7 :: r)
    (h1 : parseLe32 b0 b1 b2 b3 = s.crc.sum)
    (h2 : parseLe32 b4 b5 b6 b7 = s.crc.amount) :
    s.finish = .ok { s with rest := r, finished := true } := by
  simp [GzDecoderM.finish, hf, hrest, h1, h2]

theorem GzDecoderM.readAll_unfold (f : Nat) (s : GzDecoderM) (k : Nat) :
    GzDecoderM.readAll (f + 1) s k = (s.read k).bind (fun p =>
      if p.1 = [] then .ok ([], p.2)
      else (GzDecoderM.readAll f p.2 k).bind fun q => .ok (p.1 ++ q.1, q.2)) := by
  rcases h : s.read k with e | p
  · simp only [GzDecoderM.readAll, h]
    rfl
  · rcases p with ⟨chunk, s2⟩
    simp only [GzDecoderM.readAll, h]
    rfl

theorem GzDecoderM.readAll_decode (fuel : Nat) (v tail : List Nat) (c : Crc)
    (hdr : Header) (hwf : c.WF) (hf : v.length + 2 ≤ fuel) :
    GzDecoderM.readAll fuel
      { plain := v,
        rest := le32 ((c.update v).sum) ++ (le32 ((c.update v).amount) ++ tail),
        crc := c, header := hdr, finished := false } 1 =
      .ok (v, { plain := [], rest := tail, crc := c.update v, header := hdr,
                finished := true }) := by
  induction v generalizing c fuel with
  | nil =>
    match fuel, hf with
    | f + 1, _ =>
      rw [Crc.update_nil hwf]
      have hfin : GzDecoderM.finish
          { plain := ([] : List Nat),
            rest := le32 c.sum ++ (le32 c.amount ++ tail),
            crc := c, header := hdr, finished := false } =
          .ok { plain := ([] : List Nat), rest := tail, crc := c, header := hdr,
                finished := true } := by
        apply GzDecoderM.finish_ok _ rfl (c.sum % 256) ((c.sum >>> 8) % 256)
          ((c.sum >>> 16) % 256) ((c.sum >>> 24) % 256) (c.amount % 256)
          ((c.amount >>> 8) % 256) ((c.amount >>> 16) % 256) ((c.amount >>> 24) % 256)
          tail
        · simp [le32]
        · exact parseLe32_le32 (Crc.sum_lt hwf)
        · exact parseLe32_le32 (Crc.amount_lt hwf)
      rw [GzDecoderM.readAll_unfold, GzDecoderM.read_eofCall _ 1 (by simp), hfin]
      rfl
  | cons x xs ih =>
    match fuel, hf with
    | f + 1, hf =>
      have happ : (c.update [x]).update xs = c.update (x :: xs) := by
        rw [Crc.update_append]
        rfl
      have ihx := ih f (c.update [x]) (Crc.wf_update [x] hwf) (by simp at hf ⊢; omega)
      rw [happ] at ihx
      have hstep : (GzDecoderM.read
          { plain := x :: xs,
            rest := le32 ((c.update (x :: xs)).sum) ++
              (le32 ((c.update (x :: xs)).amount) ++ tail),
            crc := c, header := hdr, finished := false } 1) =
          .ok ([x],
            { plain := xs,
              rest := le32 ((c.update (x :: xs)).sum) ++
                (le32 ((c.update (x :: xs)).amount) ++ tail),
              crc := c.update [x], header := hdr, finished := false }) := by
        rw [GzDecoderM.read_chunk _ 1 (by simp)]
        simp
      rw [GzDecoderM.readAll_unfold, hstep]
      simp only [Except.bind]
      rw [if_neg (by simp)]
      rw [ihx]
      rfl

end Flate

namespace Flate

theorem into_header_default (lvl : Compression) (os : String) :
    Builder.new.into_header lvl os =
      [0x1f, 0x8b, 8, 0, 0, 0, 0, 0,
       (match lvl with
         | Compression.best => 2
         | Compression.fast => 4
         | _ => 0), osByte os] := rfl

theorem read_gz_header_default (lvl : Compression) (os : String) (rest : List Nat) :
    read_gz_header (Builder.new.into_header lvl os ++ rest) =
      .ok ({ extra := Option.none, filename := Option.none, comment := Option.none,
             mtime := 0 }, rest) := rfl

theorem Crc.new_update_sum (v : List Nat) : (Crc.new.update v).sum = crc32 v := rfl

theorem Crc.new_update_amount (v : List Nat) :
    (Crc.new.update v).amount = v.length % 2 ^ 32 := by
  simp [Crc.new, Crc.update, Crc.amount]

theorem MultiGzM.read_data_chunk (inflate : List Nat → Option (List Nat × List Nat))
    (f : Nat) (s : MultiGzM) (k : Nat) (hne : s.plain.take k ≠ []) :
    MultiGzM.read inflate (f + 1) s k = .ok (s.plain.take k,
      { s with plain := s.plain.drop k, crc := s.crc.update (s.plain.take k) }) := by
  simp [MultiGzM.read, hne]

theorem MultiGzM.read_eof_path (inflate : List Nat → Option (List Nat × List Nat))
    (f : Nat) (s : MultiGzM) (k : Nat) (hp : s.plain.take k = []) :
    MultiGzM.read inflate (f + 1) s k = (s.finish_member inflate).bind
      (fun p => if p.1 = 0 then .ok ([], p.2) else MultiGzM.read inflate f p.2 k) := by
  simp only [MultiGzM.read, hp]
  rcases s.finish_member inflate with e | ⟨n, s'⟩ <;> rfl

theorem MultiGzM.finish_member_finished
    (inflate : List Nat → Option (List Nat × List Nat)) (s : MultiGzM)
    (hf : s.finished = true) : s.finish_member inflate = .ok (0, s) := by
  simp [MultiGzM.finish_member, hf]

theorem MultiGzM.read_when_done (inflate : List Nat → Option (List Nat × List Nat))
    (f : Nat) (s : MultiGzM) (k : Nat) (hp : s.plain = []) (hf : s.finished = true) :
    MultiGzM.read inflate (f + 1) s k = .ok ([], s) := by
  rw [MultiGzM.read_eof_path inflate f s k (by simp [hp]),
    MultiGzM.finish_member_finished inflate s hf]
  rfl

theorem MultiGzM.finish_member_end
    (inflate : List Nat → Option (List Nat × List Nat)) (s : MultiGzM)
    (hf : s.finished = false) (b0 b1 b2 b3 b4 b5 b6 b7 : Nat)
    (hrest : s.rest = [b0, b1, b2, b3, b4, b5, b6, b7])
    (h1 : parseLe32 b0 b1 b2 b3 = s.crc.sum)
    (h2 : parseLe32 b4 b5 b6 b7 = s.crc.amount) :
    s.finish_member inflate = .ok (0, { s with rest := [], finished := true }) := by
  simp [MultiGzM.finish_member, hf, hrest, h1, h2]

theorem MultiGzM.finish_member_next
    (inflate : List Nat → Option (List Nat × List Nat)) (s : MultiGzM)
    (hf : s.finished = false) (b0 b1 b2 b3 b4 b5 b6 b7 : Nat) (r : List Nat)
    (hrest : s.rest = b0 :: b1 :: b2 :: b3 :: b4 :: b5 :: b6 :: b7 :: r)
    (h1 : parseLe32 b0 b1 b2 b3 = s.crc.sum)
    (h2 : parseLe32 b4 b5 b6 b7 = s.crc.amount)
    (hr : r ≠ []) (hdr2 : Header) (rem2 v2 rest2 : List Nat)
    (hparse : read_gz_header r = .ok (hdr2, rem2))
    (hinf : inflate rem2 = some (v2, rest2)) :
    s.finish_member inflate = .ok (r.length,
      { plain := v2, rest := rest2, crc := Crc.new, header := hdr2,
        finished := false }) := by
  have step1 : s.finish_member inflate = (match inflate rem2 with
      | some (v2, rest2) => .ok (r.length,
          { plain := v2, rest := rest2, crc := Crc.new, header := hdr2,
            finished := false })
      | Option.none => .error .codecError) := by
    simp only [MultiGzM.finish_member, hf, hrest, h1, h2, hr, hparse]
    rw [if_neg (by simp), if_neg (by simp), if_neg (by simp), if_neg (by simp)]
    rfl
  rw [step1, hinf]

theorem MultiGzM.readAll_expand (inflate : List Nat → Option (List Nat × List Nat))
    (f : Nat) (s : MultiGzM) (k : Nat) :
    MultiGzM.readAll inflate (f + 1) s k =
      (MultiGzM.read inflate (f + 1) s k).bind (fun p =>
        if p.1 = [] then .ok ([], p.2)
        else (MultiGzM.readAll inflate f p.2 k).bind fun q => .ok (p.1 ++ q.1, q.2)) := by
  rcases h : MultiGzM.read inflate (f + 1) s k with e | p
  · simp only [MultiGzM.readAll, h]
    rfl
  · rcases p with ⟨chunk, s2⟩
    simp only [MultiGzM.readAll, h]
    rfl

end Flate

namespace Flate

theorem MultiGzM.readAll_lastMember (inflate : List Nat → Option (List Nat × List Nat))
    (fuel : Nat) (v : List Nat) (c : Crc) (hdr : Header) (hwf : c.WF)
    (hf : v.length + 2 ≤ fuel) :
    MultiGzM.readAll inflate fuel
      { plain := v, rest := le32 ((c.update v).sum) ++ le32 ((c.update v).amount),
        crc := c, header := hdr, finished := false } 1 =
      .ok (v, { plain := [], rest := [], crc := c.update v, header := hdr,
                finished := true }) := by
  induction v generalizing c fuel with
  | nil =>
    match fuel, hf with
    | f + 1, _ =>
      rw [Crc.update_nil hwf]
      have hfin := MultiGzM.finish_member_end inflate
        { plain := ([] : List Nat), rest := le32 c.sum ++ le32 c.amount,
          crc := c, header := hdr, finished := false } rfl
        (c.sum % 256) ((c.sum >>> 8) % 256) ((c.sum >>> 16) % 256)
        ((c.sum >>> 24) % 256) (c.amount % 256) ((c.amount >>> 8) % 256)
        ((c.amount >>> 16) % 256) ((c.amount >>> 24) % 256)
        (by simp [le32]) (parseLe32_le32 (Crc.sum_lt hwf))
        (parseLe32_le32 (Crc.amount_lt hwf))
      rw [MultiGzM.readAll_expand, MultiGzM.read_eof_path inflate f _ 1 (by simp), hfin]
      rfl
  | cons x xs ih =>
    match fuel, hf with
    | f + 1, hf =>
      have happ : (c.update [x]).update xs = c.update (x :: xs) := by
        rw [Crc.update_append]
        rfl
      have ihx := ih f (c.update [x]) (Crc.wf_update [x] hwf)
        (by simp at hf ⊢; omega)
      rw [happ] at ihx
      have hstep : MultiGzM.read inflate (f + 1)
          { plain := x :: xs,
            rest := le32 ((c.update (x :: xs)).sum) ++ le32 ((c.update (x :: xs)).amount),
            crc := c, header := hdr, finished := false } 1 =
          .ok ([x],
            { plain := xs,
              rest := le32 ((c.update (x :: xs)).sum) ++ le32 ((c.update (x :: xs)).amount),
              crc := c.update [x], header := hdr, finished := false }) := by
        rw [MultiGzM.read_data_chunk inflate f _ 1 (by simp)]
        simp
      rw [MultiGzM.readAll_expand, hstep]
      simp only [Except.bind]
      rw [if_neg (by simp)]
      rw [ihx]
      rfl

end Flate

namespace Flate

theorem MultiGzM.readAll_twoMember (inflate : List Nat → Option (List Nat × List Nat))
    (fuel : Nat) (vA vB : List Nat) (c : Crc) (hdrA : Header)
    (lvlB : Compression) (osB : String) (cB : List Nat) (hwf : c.WF)
    (hinfB : inflate (cB ++ (le32 (crc32 vB) ++ le32 (vB.length % 2 ^ 32))) =
      some (vB, le32 (crc32 vB) ++ le32 (vB.length % 2 ^ 32)))
    (hf : vA.length + vB.length + 4 ≤ fuel) :
    MultiGzM.readAll inflate fuel
      { plain := vA,
        rest := le32 ((c.update vA).sum) ++ (le32 ((c.update vA).amount) ++
          (Builder.new.into_header lvlB osB ++
            (cB ++ (le32 (crc32 vB) ++ le32 (vB.length % 2 ^ 32))))),
        crc := c, header := hdrA, finished := false } 1 =
      .ok (vA ++ vB,
        { plain := [], rest := [], crc := Crc.new.update vB,
          header := { extra := Option.none, filename := Option.none,
                      comment := Option.none, mtime := 0 }, finished := true }) := by
  induction vA generalizing c fuel with
  | nil =>
    match fuel, hf with
    | f + 1, hf =>
      rw [Crc.update_nil hwf]
      have hrne : Builder.new.into_header lvlB osB ++
          (cB ++ (le32 (crc32 vB) ++ le32 (vB.length % 2 ^ 32))) ≠ [] := by
        rw [into_header_default]
        simp
      have hn0 : ¬ ((Builder.new.into_header lvlB osB ++
          (cB ++ (le32 (crc32 vB) ++ le32 (vB.length % 2 ^ 32)))).length = 0) := by
        rw [into_header_default]
        simp
      have hfin := MultiGzM.finish_member_next inflate
        { plain := ([] : List Nat),
          rest := le32 c.sum ++ (le32 c.amount ++
            (Builder.new.into_header lvlB osB ++
              (cB ++ (le32 (crc32 vB) ++ le32 (vB.length % 2 ^ 32))))),
          crc := c, header := hdrA, finished := false } rfl
        (c.sum % 256) ((c.sum >>> 8) % 256) ((c.sum >>> 16) % 256)
        ((c.sum >>> 24) % 256) (c.amount % 256) ((c.amount >>> 8) % 256)
        ((c.amount >>> 16) % 256) ((c.amount >>> 24) % 256) _
        (by simp [le32]) (parseLe32_le32 (Crc.sum_lt hwf))
        (parseLe32_le32 (Crc.amount_lt hwf)) hrne
        { extra := Option.none, filename := Option.none, comment := Option.none,
          mtime := 0 }
        (cB ++ (le32 (crc32 vB) ++ le32 (vB.length % 2 ^ 32))) vB
        (le32 (crc32 vB) ++ le32 (vB.length % 2 ^ 32))
        (read_gz_header_default lvlB osB _) hinfB
      rw [MultiGzM.readAll_expand, MultiGzM.read_eof_path inflate f _ 1 (by simp), hfin]
      simp only [Except.bind]
      rw [if_neg hn0]
      rcases hB : vB with _ | ⟨b, tl⟩
      all_goals subst hB
      · -- the second member has an empty payload
        match f, hf with
        | f2 + 1, _ =>
          have hfin2 := MultiGzM.finish_member_end inflate
            { plain := ([] : List Nat),
              rest := le32 (crc32 []) ++ le32 (List.length ([] : List Nat) % 2 ^ 32),
              crc := Crc.new,
              header := { extra := Option.none, filename := Option.none,
                          comment := Option.none, mtime := 0 },
              finished := false } rfl
            ((crc32 []) % 256) (((crc32 []) >>> 8) % 256) (((crc32 []) >>> 16) % 256)
            (((crc32 []) >>> 24) % 256) ((List.length ([] : List Nat) % 2 ^ 32) % 256)
            (((List.length ([] : List Nat) % 2 ^ 32) >>> 8) % 256)
            (((List.length ([] : List Nat) % 2 ^ 32) >>> 16) % 256)
            (((List.length ([] : List Nat) % 2 ^ 32) >>> 24) % 256)
            (by simp [le32]) (parseLe32_le32 (crc32_lt [])) (by decide)
          rw [MultiGzM.read_eof_path inflate f2 _ 1 (by simp), hfin2]
          rw [show Crc.new.update ([] : List Nat) = Crc.new from
            Crc.update_nil Crc.wf_new]
          rfl
      · -- the second member has payload b :: tl
        match f, hf with
        | f2 + 1, hf =>
          have hstep2 : MultiGzM.read inflate (f2 + 1)
              { plain := b :: tl,
                rest := le32 (crc32 (b :: tl)) ++ le32 ((b :: tl).length % 2 ^ 32),
                crc := Crc.new,
                header := { extra := Option.none, filename := Option.none,
                            comment := Option.none, mtime := 0 },
                finished := false } 1 =
              .ok ([b],
                { plain := tl,
                  rest := le32 (crc32 (b :: tl)) ++ le32 ((b :: tl).length % 2 ^ 32),
                  crc := Crc.new.update [b],
                  header := { extra := Option.none, filename := Option.none,
                              comment := Option.none, mtime := 0 },
                  finished := false }) := by
            rw [MultiGzM.read_data_chunk inflate f2 _ 1 (by simp)]
            simp
          rw [hstep2]
          simp only [Except.bind]
          rw [if_neg (by simp)]
          have happB : (Crc.new.update [b]).update tl = Crc.new.update (b :: tl) := by
            rw [Crc.update_append]
            rfl
          have hlast := MultiGzM.readAll_lastMember inflate (f2 + 1) tl
            (Crc.new.update [b])
            { extra := Option.none, filename := Option.none, comment := Option.none,
              mtime := 0 }
            (Crc.wf_update [b] Crc.wf_new) (by simp at hf ⊢; omega)
          rw [happB, Crc.new_update_sum, Crc.new_update_amount] at hlast
          rw [hlast]
          rfl
  | cons x xs ih =>
    match fuel, hf with
    | f + 1, hf =>
      have happ : (c.update [x]).update xs = c.update (x :: xs) := by
        rw [Crc.update_append]
        rfl
      have ihx := ih f (c.update [x]) (Crc.wf_update [x] hwf)
        (by simp at hf ⊢; omega)
      rw [happ] at ihx
      have hstep : MultiGzM.read inflate (f + 1)
          { plain := x :: xs,
            rest := le32 ((c.update (x :: xs)).sum) ++ (le32 ((c.update (x :: xs)).amount) ++
              (Builder.new.into_header lvlB osB ++
                (cB ++ (le32 (crc32 vB) ++ le32 (vB.length % 2 ^ 32))))),
            crc := c, header := hdrA, finished := false } 1 =
          .ok ([x],
            { plain := xs,
              rest := le32 ((c.update (x :: xs)).sum) ++ (le32 ((c.update (x :: xs)).amount) ++
                (Builder.new.into_header lvlB osB ++
                  (cB ++ (le32 (crc32 vB) ++ le32 (vB.length % 2 ^ 32))))),
              crc := c.update [x], header := hdrA, finished := false }) := by
        rw [MultiGzM.read_data_chunk inflate f _ 1 (by simp)]
        simp
      rw [MultiGzM.readAll_expand, hstep]
      simp only [Except.bind]
      rw [if_neg (by simp)]
      rw [ihx]
      rfl

end Flate

namespace Flate

theorem parseGzTail_crc_irrelevant (flg mtime : Nat) (rem : List Nat)
    (ca cb : Crc) (hflg : flg &&& FHCRC = 0) :
    parseGzTail flg mtime rem ca = parseGzTail flg mtime rem cb := by
  have hcond : ¬ (flg &&& FHCRC ≠ 0) := by simpa using hflg
  unfold parseGzTail
  rcases h1 : parseExtraF flg rem with e | ⟨extra, used1, rem1⟩
  · rfl
  · rcases h2 : parseNulStr (flg &&& FNAME ≠ 0) rem1 with ⟨fname, used2, rem2⟩
    rcases h3 : parseNulStr (flg &&& FCOMMENT ≠ 0) rem2 with ⟨fcomm, used3, rem3⟩
    simp only [h2, h3, if_neg hcond]

theorem read_gz_header_ignores_xfl_os (b0 b1 b2 b3 b4 b5 b6 b7 x y x' y' : Nat)
    (rest : List Nat) (hflg : b3 &&& FHCRC = 0) :
    read_gz_header (b0 :: b1 :: b2 :: b3 :: b4 :: b5 :: b6 :: b7 :: x :: y :: rest) =
      read_gz_header (b0 :: b1 :: b2 :: b3 :: b4 :: b5 :: b6 :: b7 :: x' :: y' :: rest) := by
  simp only [read_gz_header]
  by_cases hid : b0 ≠ 0x1f ∨ b1 ≠ 0x8b
  · rw [if_pos hid, if_pos hid]
  · rw [if_neg hid, if_neg hid]
    by_cases hcm : b2 ≠ 8
    · rw [if_pos hcm, if_pos hcm]
    · rw [if_neg hcm, if_neg hcm]
      exact parseGzTail_crc_irrelevant _ _ _ _ _ hflg

theorem bind_ok_eq {ε α β : Type} (a : α) (f : α → Except ε β) :
    (Except.ok a : Except ε α) >>= f = f a := rfl

set_option maxHeartbeats 1600000 in
theorem into_header_flg_no_fhcrc (b : Builder) (lvl : Compression) (os : String) :
    ∃ flg, (b.into_header lvl os).get? 3 = some flg ∧ flg &&& FHCRC = 0 := by
  rcases b with ⟨e, f, cm, m⟩
  rcases e with _ | e <;> rcases f with _ | f <;> rcases cm with _ | cm
  · exact ⟨0, rfl, by decide⟩
  · exact ⟨0 ||| FCOMMENT, rfl, by decide⟩
  · exact ⟨0 ||| FNAME, rfl, by decide⟩
  · exact ⟨0 ||| FNAME ||| FCOMMENT, rfl, by decide⟩
  · exact ⟨0 ||| FEXTRA, rfl, by decide⟩
  · exact ⟨0 ||| FEXTRA ||| FCOMMENT, rfl, by decide⟩
  · exact ⟨0 ||| FEXTRA ||| FNAME, rfl, by decide⟩
  · exact ⟨0 ||| FEXTRA ||| FNAME ||| FCOMMENT, rfl, by decide⟩

theorem parseGzTail_fhcrc_mismatch (flg mtime : Nat) (rem : List Nat) (c0 : Crc)
    (extra : Option (List Nat)) (used1 rem1 : List Nat)
    (fname : Option (List Nat)) (used2 rem2 : List Nat)
    (fcomm : Option (List Nat)) (used3 : List Nat) (s0 s1 : Nat) (r4 : List Nat)
    (hflg : flg &&& FHCRC ≠ 0)
    (h1 : parseExtraF flg rem = .ok (extra, used1, rem1))
    (h2 : parseNulStr (flg &&& FNAME ≠ 0) rem1 = (fname, used2, rem2))
    (h3 : parseNulStr (flg &&& FCOMMENT ≠ 0) rem2 = (fcomm, used3, s0 :: s1 :: r4))
    (hmis : (((c0.update used1).update used2).update used3).sum % 2 ^ 16 ≠
      (s0 ||| (s1 <<< 8))) :
    parseGzTail flg mtime rem c0 = .error .corrupt := by
  unfold parseGzTail
  rw [h1]
  simp only [bind_ok_eq]
  simp only [h2, h3]
  simp only [if_pos hflg]
  simp only [readLe16]
  simp only [bind_ok_eq]
  simp [hmis]
  exact fun hcon => hmis (by rw [show (2 : Nat) ^ 16 = 65536 from by norm_num]; exact hcon)

end Flate

namespace Flate

theorem encodeFlateRead_eq (deflateF : Compression → List Nat → List Nat)
    (lvl : Compression) (v : List Nat) :
    encodeFlateRead deflateF lvl v = deflateF lvl v := pullAll_eq _

theorem decodeFlateRead_eq (inflateF : List Nat → Option (List Nat × List Nat))
    (src v rest : List Nat) (h : inflateF src = some (v, rest)) :
    decodeFlateRead inflateF src = .ok v := by
  simp [decodeFlateRead, h, pullAll_eq]

theorem encodeFlateWrite_eq (deflateF : Compression → List Nat → List Nat)
    (lvl : Compression) (v : List Nat) :
    encodeFlateWrite deflateF lvl v = deflateF lvl v := by
  simp [encodeFlateWrite, WriterM.init, WriterM.write, WriterM.finishWith]

theorem decodeFlateWrite_eq (inflateF : List Nat → Option (List Nat × List Nat))
    (src v rest : List Nat) (h : inflateF src = some (v, rest)) :
    decodeFlateWrite inflateF src = .ok v := by
  simp [decodeFlateWrite, WriterM.init, WriterM.write, WriterM.finishWith, h,
    Except.map]

theorem gzEncodeRead_eq (deflateF : Compression → List Nat → List Nat)
    (b : Builder) (lvl : Compression) (os : String) (v : List Nat)
    (hc : deflateF lvl v ≠ []) :
    gzEncodeRead deflateF b lvl os v =
      b.into_header lvl os ++ deflateF lvl v ++
        (le32 (crc32 v) ++ le32 (v.length % 2 ^ 32)) := by
  unfold gzEncodeRead GzEncoderM.init
  have hmain := GzEncoderM.readAll_main
    ((b.into_header lvl os).length + (deflateF lvl v).length + 9)
    { header := b.into_header lvl os, pos := 0, eof := false,
      innerRem := deflateF lvl v, crcSum := crc32 v,
      crcAmt := v.length % 2 ^ 32 } 1
    rfl (by simp) hc (by omega) (by simp)
  simpa [GzEncoderM.footerArr] using hmain

theorem gzEncodeWrite_eq (deflateF : Compression → List Nat → List Nat)
    (b : Builder) (lvl : Compression) (os : String) (v : List Nat) :
    gzEncodeWrite deflateF b lvl os v =
      b.into_header lvl os ++ deflateF lvl v ++
        (le32 (crc32 v) ++ le32 (v.length % 2 ^ 32)) := by
  simp [gzEncodeWrite, GzWriterM.init, GzWriterM.write, GzWriterM.write_header,
    GzWriterM.try_finish, WriterM.init, WriterM.write, crc32,
    Crc.new_update_amount]

theorem gzDecodeRead_frame (inflateF : List Nat → Option (List Nat × List Nat))
    (lvl : Compression) (os : String) (v c tail : List Nat)
    (hinf : inflateF (c ++ (le32 (crc32 v) ++ (le32 (v.length % 2 ^ 32) ++ tail))) =
      some (v, le32 (crc32 v) ++ (le32 (v.length % 2 ^ 32) ++ tail))) :
    gzDecodeRead inflateF (Builder.new.into_header lvl os ++
      (c ++ (le32 (crc32 v) ++ (le32 (v.length % 2 ^ 32) ++ tail)))) = .ok v := by
  have hnew : GzDecoderM.new inflateF (Builder.new.into_header lvl os ++
      (c ++ (le32 (crc32 v) ++ (le32 (v.length % 2 ^ 32) ++ tail)))) =
      .ok { plain := v,
            rest := le32 (crc32 v) ++ (le32 (v.length % 2 ^ 32) ++ tail),
            crc := Crc.new,
            header := { extra := Option.none, filename := Option.none,
                        comment := Option.none, mtime := 0 },
            finished := false } := by
    unfold GzDecoderM.new
    rw [read_gz_header_default]
    simp only [bind_ok_eq]
    rw [hinf]
  have hdec := GzDecoderM.readAll_decode (v.length + 2) v tail Crc.new
    { extra := Option.none, filename := Option.none, comment := Option.none,
      mtime := 0 } Crc.wf_new (by omega)
  rw [Crc.new_update_sum, Crc.new_update_amount] at hdec
  simp only [show (2 : Nat) ^ 32 = 4294967296 from by norm_num] at hdec
  unfold gzDecodeRead
  rw [hnew]
  simp only [bind_ok_eq]
  simp [hdec, bind_ok_eq]

end Flate

namespace Flate

theorem multiGzDecodeRead_two (inflateF : List Nat → Option (List Nat × List Nat))
    (fuel : Nat) (lvlA lvlB : Compression) (osA osB : String)
    (vA vB cA cB : List Nat)
    (hinfA : inflateF (cA ++ (le32 (crc32 vA) ++ (le32 (vA.length % 2 ^ 32) ++
        (Builder.new.into_header lvlB osB ++
          (cB ++ (le32 (crc32 vB) ++ le32 (vB.length % 2 ^ 32))))))) =
      some (vA, le32 (crc32 vA) ++ (le32 (vA.length % 2 ^ 32) ++
        (Builder.new.into_header lvlB osB ++
          (cB ++ (le32 (crc32 vB) ++ le32 (vB.length % 2 ^ 32)))))))
    (hinfB : inflateF (cB ++ (le32 (crc32 vB) ++ le32 (vB.length % 2 ^ 32))) =
      some (vB, le32 (crc32 vB) ++ le32 (vB.length % 2 ^ 32)))
    (hfuel : vA.length + vB.length + 4 ≤ fuel) :
    multiGzDecodeRead inflateF fuel
      (Builder.new.into_header lvlA osA ++
        (cA ++ (le32 (crc32 vA) ++ (le32 (vA.length % 2 ^ 32) ++
          (Builder.new.into_header lvlB osB ++
            (cB ++ (le32 (crc32 vB) ++ le32 (vB.length % 2 ^ 32)))))))) =
      .ok (vA ++ vB) := by
  have hnew : MultiGzM.new inflateF (Builder.new.into_header lvlA osA ++
      (cA ++ (le32 (crc32 vA) ++ (le32 (vA.length % 2 ^ 32) ++
        (Builder.new.into_header lvlB osB ++
          (cB ++ (le32 (crc32 vB) ++ le32 (vB.length % 2 ^ 32)))))))) =
      .ok { plain := vA,
            rest := le32 (crc32 vA) ++ (le32 (vA.length % 2 ^ 32) ++
              (Builder.new.into_header lvlB osB ++
                (cB ++ (le32 (crc32 vB) ++ le32 (vB.length % 2 ^ 32))))),
            crc := Crc.new,
            header := { extra := Option.none, filename := Option.none,
                        comment := Option.none, mtime := 0 },
            finished := false } := by
    unfold MultiGzM.new
    rw [read_gz_header_default]
    simp only [bind_ok_eq]
    rw [hinfA]
  have htwo := MultiGzM.readAll_twoMember inflateF fuel vA vB Crc.new
    { extra := Option.none, filename := Option.none, comment := Option.none,
      mtime := 0 } lvlB osB cB Crc.wf_new hinfB hfuel
  rw [Crc.new_update_sum, Crc.new_update_amount] at htwo
  simp only [show (2 : Nat) ^ 32 = 4294967296 from by norm_num] at htwo
  unfold multiGzDecodeRead
  rw [hnew]
  simp only [bind_ok_eq]
  simp [htwo, bind_ok_eq]

theorem crazyChain_eq (deflateF zlibDef : Compression → List Nat → List Nat)
    (inflateF zlibInf : List Nat → Option (List Nat × List Nat))
    (lvl : Compression) (os : String) (v : List Nat)
    (HrawAll : ∀ lv w rest, inflateF (deflateF lv w ++ rest) = some (w, rest))
    (HzlibAll : ∀ lv w rest, zlibInf (zlibDef lv w ++ rest) = some (w, rest))
    (hcne : deflateF lvl v ≠ []) :
    crazyChain deflateF inflateF zlibDef zlibInf lvl os v = .ok v := by
  unfold crazyChain
  simp only [encodeFlateRead_eq]
  have hz := HzlibAll lvl (deflateF lvl (gzEncodeRead deflateF Builder.new lvl os v)) []
  rw [List.append_nil] at hz
  rw [decodeFlateRead_eq zlibInf _ _ [] hz]
  simp only [bind_ok_eq]
  have hr := HrawAll lvl (gzEncodeRead deflateF Builder.new lvl os v) []
  rw [List.append_nil] at hr
  rw [decodeFlateRead_eq inflateF _ _ [] hr]
  simp only [bind_ok_eq]
  rw [gzEncodeRead_eq deflateF Builder.new lvl os v hcne]
  have hfr := gzDecodeRead_frame inflateF lvl os v (deflateF lvl v) []
    (HrawAll lvl v (le32 (crc32 v) ++ (le32 (v.length % 2 ^ 32) ++ [])))
  simpa using hfr

end Flate

namespace Flate

/-- C1: for every byte sequence `v` and compression level, decoding the
encoding of `v` returns exactly `v`, for raw DEFLATE, ZLIB and GZIP, on the
read side and on the write side, and for the chained composition of the
`crazy` test — stated for every incremental codec satisfying the §6 codec
contract (`inflate (deflate v ++ rest) = (v, rest)`, DEFLATE output
nonempty).  The library provides no write-side GZIP decoder, so the GZIP
write-side encoder is composed with the read-side decoder. -/
theorem claim_c1_roundtrip
    (deflateF zlibDef : Compression → List Nat → List Nat)
    (inflateF zlibInf : List Nat → Option (List Nat × List Nat))
    (Hraw : ∀ lv w rest, inflateF (deflateF lv w ++ rest) = some (w, rest))
    (Hzlib : ∀ lv w rest, zlibInf (zlibDef lv w ++ rest) = some (w, rest))
    (Hne : ∀ lv w, deflateF lv w ≠ [])
    (lvl : Compression) (os : String) (v : List Nat) :
    decodeFlateRead inflateF (encodeFlateRead deflateF lvl v) = .ok v ∧
    decodeFlateWrite inflateF (encodeFlateWrite deflateF lvl v) = .ok v ∧
    decodeFlateRead zlibInf (encodeFlateRead zlibDef lvl v) = .ok v ∧
    decodeFlateWrite zlibInf (encodeFlateWrite zlibDef lvl v) = .ok v ∧
    gzDecodeRead inflateF (gzEncodeRead deflateF Builder.new lvl os v) = .ok v ∧
    gzDecodeRead inflateF (gzEncodeWrite deflateF Builder.new lvl os v) = .ok v ∧
    crazyChain deflateF inflateF zlibDef zlibInf lvl os v = .ok v := by
  have hraw0 := Hraw lvl v []
  rw [List.append_nil] at hraw0
  have hzlib0 := Hzlib lvl v []
  rw [List.append_nil] at hzlib0
  have hgz : gzDecodeRead inflateF
      (Builder.new.into_header lvl os ++ deflateF lvl v ++
        (le32 (crc32 v) ++ le32 (v.length % 2 ^ 32))) = .ok v := by
    have hfr := gzDecodeRead_frame inflateF lvl os v (deflateF lvl v) []
      (Hraw lvl v (le32 (crc32 v) ++ (le32 (v.length % 2 ^ 32) ++ [])))
    simpa using hfr
  refine ⟨?_, ?_, ?_, ?_, ?_, ?_, ?_⟩
  · rw [encodeFlateRead_eq]
    exact decodeFlateRead_eq inflateF _ _ [] hraw0
  · rw [encodeFlateWrite_eq]
    exact decodeFlateWrite_eq inflateF _ _ [] hraw0
  · rw [encodeFlateRead_eq]
    exact decodeFlateRead_eq zlibInf _ _ [] hzlib0
  · rw [encodeFlateWrite_eq]
    exact decodeFlateWrite_eq zlibInf _ _ [] hzlib0
  · rw [gzEncodeRead_eq deflateF Builder.new lvl os v (Hne lvl v)]
    exact hgz
  · rw [gzEncodeWrite_eq deflateF Builder.new lvl os v]
    exact hgz
  · exact crazyChain_eq deflateF zlibDef inflateF zlibInf lvl os v Hraw Hzlib
      (Hne lvl v)

/-- Witness for C1 at the stored codec, level `Default`, `v = "foo"`. -/
theorem claim_c1_roundtrip_witness :
    decodeFlateRead storedInflate
      (encodeFlateRead storedDeflate Compression.dflt [102, 111, 111]) =
        .ok [102, 111, 111] ∧
    decodeFlateWrite storedInflate
      (encodeFlateWrite storedDeflate Compression.dflt [102, 111, 111]) =
        .ok [102, 111, 111] ∧
    decodeFlateRead storedInflate
      (encodeFlateRead storedDeflate Compression.dflt [102, 111, 111]) =
        .ok [102, 111, 111] ∧
    decodeFlateWrite storedInflate
      (encodeFlateWrite storedDeflate Compression.dflt [102, 111, 111]) =
        .ok [102, 111, 111] ∧
    gzDecodeRead storedInflate
      (gzEncodeRead storedDeflate Builder.new Compression.dflt "linux"
        [102, 111, 111]) = .ok [102, 111, 111] ∧
    gzDecodeRead storedInflate
      (gzEncodeWrite storedDeflate Builder.new Compression.dflt "linux"
        [102, 111, 111]) = .ok [102, 111, 111] ∧
    crazyChain storedDeflate storedInflate storedDeflate storedInflate
      Compression.dflt "linux" [102, 111, 111] = .ok [102, 111, 111] :=
  claim_c1_roundtrip storedDeflate storedDeflate storedInflate storedInflate
    storedInflate_storedDeflate storedInflate_storedDeflate storedDeflate_ne_nil
    Compression.dflt "linux" [102, 111, 111]

/-- C2: a GZIP pull encoder, driven to end of stream, emits exactly the
serialized header, then the DEFLATE payload, then 8 trailer bytes — the
CRC-32 of the uncompressed payload (LE32) followed by the uncompressed
length mod 2^32 (LE32) — and nothing else; the trailer only begins once the
codec has ended the stream (`c` here is the codec's whole output, which for
DEFLATE is nonempty). -/
theorem claim_c2_gz_encoder_frame
    (deflateF : Compression → List Nat → List Nat) (b : Builder)
    (lvl : Compression) (os : String) (v : List Nat) (k fuel : Nat)
    (hc : deflateF lvl v ≠ []) (hk : 1 ≤ k)
    (hfuel : (b.into_header lvl os).length + (deflateF lvl v).length + 9 ≤ fuel) :
    GzEncoderM.readAll fuel
      (GzEncoderM.init (b.into_header lvl os) (deflateF lvl v) (crc32 v)
        (v.length % 2 ^ 32)) k =
      b.into_header lvl os ++ deflateF lvl v ++
        (le32 (crc32 v) ++ le32 (v.length % 2 ^ 32)) ∧
    (GzEncoderM.readAll fuel
      (GzEncoderM.init (b.into_header lvl os) (deflateF lvl v) (crc32 v)
        (v.length % 2 ^ 32)) k).length =
      (b.into_header lvl os).length + (deflateF lvl v).length + 8 := by
  have hmain := GzEncoderM.readAll_main fuel
    (GzEncoderM.init (b.into_header lvl os) (deflateF lvl v) (crc32 v)
      (v.length % 2 ^ 32)) k rfl (by simp [GzEncoderM.init]) hc hk
    (by simp [GzEncoderM.init]; omega)
  have heq : GzEncoderM.readAll fuel
      (GzEncoderM.init (b.into_header lvl os) (deflateF lvl v) (crc32 v)
        (v.length % 2 ^ 32)) k =
      b.into_header lvl os ++ deflateF lvl v ++
        (le32 (crc32 v) ++ le32 (v.length % 2 ^ 32)) := by
    simpa [GzEncoderM.init, GzEncoderM.footerArr] using hmain
  refine ⟨heq, ?_⟩
  rw [heq]
  simp [le32]
  omega

/-- Witness for C2 at the stored codec, `v = [7]`, one-byte buffer. -/
theorem claim_c2_gz_encoder_frame_witness :
    storedDeflate Compression.dflt [7] ≠ [] ∧ 1 ≤ 1 ∧
    (Builder.new.into_header Compression.dflt "linux").length +
      (storedDeflate Compression.dflt [7]).length + 9 ≤ 30 ∧
    (GzEncoderM.readAll 30
      (GzEncoderM.init (Builder.new.into_header Compression.dflt "linux")
        (storedDeflate Compression.dflt [7]) (crc32 [7])
        (List.length [7] % 2 ^ 32)) 1 =
      Builder.new.into_header Compression.dflt "linux" ++
        storedDeflate Compression.dflt [7] ++
        (le32 (crc32 [7]) ++ le32 (List.length [7] % 2 ^ 32)) ∧
    (GzEncoderM.readAll 30
      (GzEncoderM.init (Builder.new.into_header Compression.dflt "linux")
        (storedDeflate Compression.dflt [7]) (crc32 [7])
        (List.length [7] % 2 ^ 32)) 1).length =
      (Builder.new.into_header Compression.dflt "linux").length +
        (storedDeflate Compression.dflt [7]).length + 8) :=
  ⟨by decide, by decide, by decide,
    claim_c2_gz_encoder_frame storedDeflate Builder.new Compression.dflt "linux"
      [7] 1 30 (by decide) (by decide) (by decide)⟩

end Flate

namespace Flate

/-- C3: when the payload has reached codec EOF, a read triggers `finish`,
which reads exactly 8 further bytes directly from the underlying source;
a source with fewer than 8 bytes left, a first LE32 field differing from the
digest's sum, or a second LE32 field differing from the digest's amount each
fail with the `corrupt` error (never `unexpectedEof`); when both fields
match, exactly 8 bytes are consumed and the decoder is marked finished. -/
theorem claim_c3_trailer_verification (s : GzDecoderM)
    (b0 b1 b2 b3 b4 b5 b6 b7 k : Nat) (r : List Nat)
    (hf : s.finished = false) :
    (s.rest.length < 8 → s.finish = .error .corrupt) ∧
    (s.rest = b0 :: b1 :: b2 :: b3 :: b4 :: b5 :: b6 :: b7 :: r →
      parseLe32 b0 b1 b2 b3 ≠ s.crc.sum → s.finish = .error .corrupt) ∧
    (s.rest = b0 :: b1 :: b2 :: b3 :: b4 :: b5 :: b6 :: b7 :: r →
      parseLe32 b0 b1 b2 b3 = s.crc.sum → parseLe32 b4 b5 b6 b7 ≠ s.crc.amount →
      s.finish = .error .corrupt) ∧
    (s.rest = b0 :: b1 :: b2 :: b3 :: b4 :: b5 :: b6 :: b7 :: r →
      parseLe32 b0 b1 b2 b3 = s.crc.sum → parseLe32 b4 b5 b6 b7 = s.crc.amount →
      s.finish = .ok { s with rest := r, finished := true }) ∧
    (s.plain = [] → s.read k = (s.finish).bind fun s' => .ok ([], s')) := by
  refine ⟨?_, ?_, ?_, ?_, fun hp => GzDecoderM.read_eofCall s k (by simp [hp])⟩
  · intro hlen
    unfold GzDecoderM.finish
    rw [if_neg (by simp [hf])]
    rcases hr : s.rest with _ | ⟨a0, _ | ⟨a1, _ | ⟨a2, _ | ⟨a3, _ | ⟨a4, _ |
      ⟨a5, _ | ⟨a6, _ | ⟨a7, rr⟩⟩⟩⟩⟩⟩⟩⟩
    all_goals try rfl
    rw [hr] at hlen
    simp at hlen
    omega
  · intro hrest hne
    unfold GzDecoderM.finish
    rw [if_neg (by simp [hf]), hrest]
    simp only [if_pos hne]
  · intro hrest h1 hne
    unfold GzDecoderM.finish
    rw [if_neg (by simp [hf]), hrest]
    simp [h1, hne]
  · intro hrest h1 h2
    exact GzDecoderM.finish_ok s hf b0 b1 b2 b3 b4 b5 b6 b7 r hrest h1 h2

/-- Witness for C3: a decoder state whose trailer matches (all-zero trailer,
fresh digest) finishes successfully consuming exactly the 8 bytes. -/
theorem claim_c3_trailer_verification_witness :
    ({ plain := [], rest := [0, 0, 0, 0, 0, 0, 0, 0, 9], crc := Crc.new,
       header := { extra := Option.none, filename := Option.none,
                   comment := Option.none, mtime := 0 },
       finished := false } : GzDecoderM).finished = false ∧
    ({ plain := [], rest := [0, 0, 0, 0, 0, 0, 0, 0, 9], crc := Crc.new,
       header := { extra := Option.none, filename := Option.none,
                   comment := Option.none, mtime := 0 },
       finished := false } : GzDecoderM).rest =
      0 :: 0 :: 0 :: 0 :: 0 :: 0 :: 0 :: 0 :: [9] ∧
    parseLe32 0 0 0 0 = Crc.new.sum ∧ parseLe32 0 0 0 0 = Crc.new.amount ∧
    GzDecoderM.finish
      { plain := [], rest := [0, 0, 0, 0, 0, 0, 0, 0, 9], crc := Crc.new,
        header := { extra := Option.none, filename := Option.none,
                    comment := Option.none, mtime := 0 },
        finished := false } =
      .ok { plain := [], rest := [9], crc := Crc.new,
            header := { extra := Option.none, filename := Option.none,
                        comment := Option.none, mtime := 0 },
            finished := true } :=
  ⟨rfl, rfl, by decide, by decide,
    (claim_c3_trailer_verification
      { plain := [], rest := [0, 0, 0, 0, 0, 0, 0, 0, 9], crc := Crc.new,
        header := { extra := Option.none, filename := Option.none,
                    comment := Option.none, mtime := 0 },
        finished := false } 0 0 0 0 0 0 0 0 1 [9] rfl).2.2.2.1 rfl (by decide)
      (by decide)⟩

/-- C4: a multi-member decoder over the concatenation of two independently
encoded GZIP members yields the first plaintext followed by the second, and
finishes (the member boundary verifies the first trailer, peeks the source,
parses the second header and resets digest and codec in place); a
single-member decoder over the same bytes yields only the first plaintext;
and once the multi-member decoder is finished every further read reports 0
bytes with the state unchanged.  Stated for every codec satisfying the §6
contract. -/
theorem claim_c4_multi_member
    (deflateF : Compression → List Nat → List Nat)
    (inflateF : List Nat → Option (List Nat × List Nat))
    (Hraw : ∀ lv w rest, inflateF (deflateF lv w ++ rest) = some (w, rest))
    (Hne : ∀ lv w, deflateF lv w ≠ [])
    (lvlA lvlB : Compression) (osA osB : String) (vA vB : List Nat)
    (fuel f k : Nat) (s : MultiGzM)
    (hfuel : vA.length + vB.length + 4 ≤ fuel) :
    multiGzDecodeRead inflateF fuel
      (gzEncodeRead deflateF Builder.new lvlA osA vA ++
        gzEncodeRead deflateF Builder.new lvlB osB vB) = .ok (vA ++ vB) ∧
    gzDecodeRead inflateF
      (gzEncodeRead deflateF Builder.new lvlA osA vA ++
        gzEncodeRead deflateF Builder.new lvlB osB vB) = .ok vA ∧
    (s.finished = true → s.plain = [] →
      MultiGzM.read inflateF (f + 1) s k = .ok ([], s)) := by
  have hA := gzEncodeRead_eq deflateF Builder.new lvlA osA vA (Hne _ _)
  have hB := gzEncodeRead_eq deflateF Builder.new lvlB osB vB (Hne _ _)
  refine ⟨?_, ?_, fun h1 h2 => MultiGzM.read_when_done inflateF f s k h2 h1⟩
  · rw [hA, hB]
    have h2 := multiGzDecodeRead_two inflateF fuel lvlA lvlB osA osB vA vB
      (deflateF lvlA vA) (deflateF lvlB vB)
      (Hraw lvlA vA _) (Hraw lvlB vB _) hfuel
    rw [show (le32 (crc32 vB) ++ le32 (vB.length % 2 ^ 32)) =
      (le32 (crc32 vB) ++ le32 (vB.length % 2 ^ 32)) from rfl] at h2
    simpa [List.append_assoc] using h2
  · rw [hA, hB]
    have hfr := gzDecodeRead_frame inflateF lvlA osA vA (deflateF lvlA vA)
      (Builder.new.into_header lvlB osB ++ deflateF lvlB vB ++
        (le32 (crc32 vB) ++ le32 (vB.length % 2 ^ 32)))
      (Hraw lvlA vA _)
    simpa [List.append_assoc] using hfr

/-- Witness for C4 at the stored codec: members encoding `"A"` and `"B"`. -/
theorem claim_c4_multi_member_witness :
    [65].length + [66].length + 4 ≤ 10 ∧
    (multiGzDecodeRead storedInflate 10
      (gzEncodeRead storedDeflate Builder.new Compression.dflt "linux" [65] ++
        gzEncodeRead storedDeflate Builder.new Compression.dflt "linux" [66]) =
      .ok ([65] ++ [66]) ∧
    gzDecodeRead storedInflate
      (gzEncodeRead storedDeflate Builder.new Compression.dflt "linux" [65] ++
        gzEncodeRead storedDeflate Builder.new Compression.dflt "linux" [66]) =
      .ok [65] ∧
    (({ plain := [], rest := [], crc := Crc.new,
        header := { extra := Option.none, filename := Option.none,
                    comment := Option.none, mtime := 0 },
        finished := true } : MultiGzM).finished = true →
      ({ plain := [], rest := [], crc := Crc.new,
         header := { extra := Option.none, filename := Option.none,
                     comment := Option.none, mtime := 0 },
         finished := true } : MultiGzM).plain = [] →
      MultiGzM.read storedInflate (0 + 1)
        { plain := [], rest := [], crc := Crc.new,
          header := { extra := Option.none, filename := Option.none,
                      comment := Option.none, mtime := 0 },
          finished := true } 1 =
        .ok ([], { plain := [], rest := [], crc := Crc.new,
                   header := { extra := Option.none, filename := Option.none,
                               comment := Option.none, mtime := 0 },
                   finished := true }))) :=
  ⟨by decide,
    claim_c4_multi_member storedDeflate storedInflate storedInflate_storedDeflate
      storedDeflate_ne_nil Compression.dflt Compression.dflt "linux" "linux"
      [65] [66] 10 0 1
      { plain := [], rest := [], crc := Crc.new,
        header := { extra := Option.none, filename := Option.none,
                    comment := Option.none, mtime := 0 },
        finished := true } (by decide)⟩

end Flate

namespace Flate

/-- C5: the xfl byte (index 8) of the emitted header follows the claimed
level mapping, and the OS byte (index 9) is 3 on `"linux"`, 7 on `"macos"`
and 0 for the literal `"win32"`; but the source matches the string
`"win32"`, which `std::env::consts::OS` never equals — on Windows that
constant is `"windows"`, for which the fallthrough arm emits 255, not the
claimed 0. -/
theorem claim_c5_os_byte_divergence (lvl : Compression) (os : String) :
    ((Builder.new.into_header lvl os).get? 8 =
      some (match lvl with
        | Compression.best => 2
        | Compression.fast => 4
        | _ => 0)) ∧
    ((Builder.new.into_header lvl os).get? 9 = some (osByte os)) ∧
    osByte "linux" = 3 ∧ osByte "macos" = 7 ∧ osByte "win32" = 0 ∧
    osByte "windows" = 255 ∧ (255 : Nat) ≠ 0 := by
  refine ⟨?_, ?_, rfl, rfl, rfl, rfl, by decide⟩ <;> cases lvl <;> rfl

/-- C6 (amended): the header writer never sets the FHCRC flag bit, and the
parser — whenever FHCRC is present — reads a stored LE16 value and compares
it to the low 16 bits of the CRC-32 of the header bytes read so far; on
mismatch the parse fails with `corrupt()` (the checksum error), not
`bad_header()`. -/
theorem claim_c6_fhcrc_asymmetry (b : Builder) (lvl : Compression) (os : String)
    (flg mtime : Nat) (rem : List Nat) (c0 : Crc)
    (extra : Option (List Nat)) (used1 rem1 : List Nat)
    (fname : Option (List Nat)) (used2 rem2 : List Nat)
    (fcomm : Option (List Nat)) (used3 : List Nat) (s0 s1 : Nat) (r4 : List Nat)
    (hflg : flg &&& FHCRC ≠ 0)
    (h1 : parseExtraF flg rem = .ok (extra, used1, rem1))
    (h2 : parseNulStr (flg &&& FNAME ≠ 0) rem1 = (fname, used2, rem2))
    (h3 : parseNulStr (flg &&& FCOMMENT ≠ 0) rem2 = (fcomm, used3, s0 :: s1 :: r4))
    (hmis : (((c0.update used1).update used2).update used3).sum % 2 ^ 16 ≠
      (s0 ||| (s1 <<< 8))) :
    (∃ f, (b.into_header lvl os).get? 3 = some f ∧ f &&& FHCRC = 0) ∧
    parseGzTail flg mtime rem c0 = .error .corrupt :=
  ⟨into_header_flg_no_fhcrc b lvl os,
    parseGzTail_fhcrc_mismatch flg mtime rem c0 extra used1 rem1 fname used2
      rem2 fcomm used3 s0 s1 r4 hflg h1 h2 h3 hmis⟩

/-- Witness for C6: a headerless-fields stream with FHCRC set and stored
checksum 1 (the running digest's low 16 bits are 0) fails as `corrupt`. -/
theorem claim_c6_fhcrc_asymmetry_witness :
    (2 : Nat) &&& FHCRC ≠ 0 ∧
    parseExtraF 2 [1, 0] = .ok (Option.none, [], [1, 0]) ∧
    parseNulStr (decide ((2 : Nat) &&& FNAME ≠ 0)) [1, 0] = (Option.none, [], [1, 0]) ∧
    parseNulStr (decide ((2 : Nat) &&& FCOMMENT ≠ 0)) [1, 0] = (Option.none, [], [1, 0]) ∧
    (((Crc.new.update []).update []).update []).sum % 2 ^ 16 ≠ (1 ||| (0 <<< 8)) ∧
    ((∃ f, (Builder.new.into_header Compression.dflt "linux").get? 3 = some f ∧
        f &&& FHCRC = 0) ∧
      parseGzTail 2 0 [1, 0] Crc.new = .error .corrupt) :=
  ⟨by decide, by decide, by decide, by decide, by decide,
    claim_c6_fhcrc_asymmetry Builder.new Compression.dflt "linux" 2 0 [1, 0]
      Crc.new Option.none [] [1, 0] Option.none [] [1, 0] Option.none [] 1 0 []
      (by decide) (by decide) (by decide) (by decide) (by decide)⟩

set_option maxRecDepth 10000 in
/-- Counterexample for C6 as claimed: two streams with FHCRC set whose
stored LE16 values are 0 and 1 — at least one of them necessarily differs
from the header digest (here both do) — and the parse fails with `corrupt`,
never with `badHeader`, refuting "mismatch fails with the bad_header error". -/
theorem claim_c6_fhcrc_counterexample :
    read_gz_header [0x1f, 0x8b, 8, 2, 0, 0, 0, 0, 0, 0, 0, 0] =
      .error .corrupt ∧
    read_gz_header [0x1f, 0x8b, 8, 2, 0, 0, 0, 0, 0, 0, 1, 0] =
      .error .corrupt ∧
    GzError.corrupt ≠ GzError.badHeader :=
  ⟨by decide, by decide, by decide⟩

end Flate

namespace Flate


/-- C7 (amended): a read with a zero-length buffer always reports 0 bytes,
and the DEFLATE/ZLIB pull adapters, the gzip encoder during the header phase
and during the footer phase all leave their state unchanged; but the gzip
encoder that has exhausted its header with the codec at end of stream flips
its `eof` flag and resets `pos` for the trailer even on a zero-length read,
and the gzip decoder whose decompressed chunk is empty triggers `finish`
(trailer read and verification) even on a zero-length read. -/
theorem claim_c7_zero_length_read (fs : FlateStream)
    (sh sf se : GzEncoderM) (sd : GzDecoderM)
    (hhe : sh.eof = false) (hh : sh.pos < sh.header.length)
    (hf : sf.eof = true)
    (he : se.eof = false) (hep : ¬ se.pos < se.header.length) :
    fs.read 0 = ([], fs) ∧
    sh.read 0 = ([], sh) ∧
    sf.read 0 = ([], sf) ∧
    se.read 0 = ([], { se with eof := true, pos := 0 }) ∧
    sd.read 0 = (sd.finish).bind fun s' => .ok ([], s') := by
  refine ⟨?_, ?_, ?_, ?_, GzDecoderM.read_eofCall sd 0 (by simp)⟩
  · simp [FlateStream.read]
  · rcases sh with ⟨hdr, pos, eo, ir, cs, ca⟩
    simp only at hhe hh
    subst hhe
    simp [GzEncoderM.read, hh]
  · rcases sf with ⟨hdr, pos, eo, ir, cs, ca⟩
    simp only at hf
    subst hf
    by_cases hp : pos = 8
    · subst hp
      simp [GzEncoderM.read, GzEncoderM.read_footer]
    · simp [GzEncoderM.read, GzEncoderM.read_footer, hp]
  · simp [GzEncoderM.read, GzEncoderM.read_footer, he, hep]

/-- Witness for C7: concrete states for each of the five conjuncts. -/
theorem claim_c7_zero_length_read_witness :
    ({ header := [31, 139], pos := 0, eof := false, innerRem := [5],
       crcSum := 0, crcAmt := 0 } : GzEncoderM).eof = false ∧
    ({ header := [31, 139], pos := 0, eof := false, innerRem := [5],
       crcSum := 0, crcAmt := 0 } : GzEncoderM).pos <
      ({ header := [31, 139], pos := 0, eof := false, innerRem := [5],
         crcSum := 0, crcAmt := 0 } : GzEncoderM).header.length ∧
    ({ header := [31, 139], pos := 3, eof := true, innerRem := [],
       crcSum := 0, crcAmt := 0 } : GzEncoderM).eof = true ∧
    ({ header := [31, 139], pos := 2, eof := false, innerRem := [5],
       crcSum := 0, crcAmt := 0 } : GzEncoderM).eof = false ∧
    ¬ ({ header := [31, 139], pos := 2, eof := false, innerRem := [5],
         crcSum := 0, crcAmt := 0 } : GzEncoderM).pos <
      ({ header := [31, 139], pos := 2, eof := false, innerRem := [5],
         crcSum := 0, crcAmt := 0 } : GzEncoderM).header.length ∧
    (FlateStream.read ⟨[7, 8]⟩ 0 = ([], ⟨[7, 8]⟩) ∧
     GzEncoderM.read
       { header := [31, 139], pos := 0, eof := false, innerRem := [5],
         crcSum := 0, crcAmt := 0 } 0 =
       ([], { header := [31, 139], pos := 0, eof := false, innerRem := [5],
              crcSum := 0, crcAmt := 0 }) ∧
     GzEncoderM.read
       { header := [31, 139], pos := 3, eof := true, innerRem := [],
         crcSum := 0, crcAmt := 0 } 0 =
       ([], { header := [31, 139], pos := 3, eof := true, innerRem := [],
              crcSum := 0, crcAmt := 0 }) ∧
     GzEncoderM.read
       { header := [31, 139], pos := 2, eof := false, innerRem := [5],
         crcSum := 0, crcAmt := 0 } 0 =
       ([], { header := [31, 139], pos := 0, eof := true, innerRem := [5],
              crcSum := 0, crcAmt := 0 }) ∧
     GzDecoderM.read
       { plain := [], rest := [], crc := Crc.new,
         header := { extra := Option.none, filename := Option.none,
                     comment := Option.none, mtime := 0 },
         finished := true } 0 =
       (GzDecoderM.finish
         { plain := [], rest := [], crc := Crc.new,
           header := { extra := Option.none, filename := Option.none,
                       comment := Option.none, mtime := 0 },
           finished := true }).bind fun s' => .ok ([], s')) :=
  ⟨rfl, by decide, rfl, rfl, by decide,
    claim_c7_zero_length_read ⟨[7, 8]⟩
      { header := [31, 139], pos := 0, eof := false, innerRem := [5],
        crcSum := 0, crcAmt := 0 }
      { header := [31, 139], pos := 3, eof := true, innerRem := [],
        crcSum := 0, crcAmt := 0 }
      { header := [31, 139], pos := 2, eof := false, innerRem := [5],
        crcSum := 0, crcAmt := 0 }
      { plain := [], rest := [], crc := Crc.new,
        header := { extra := Option.none, filename := Option.none,
                    comment := Option.none, mtime := 0 },
        finished := true }
      rfl (by decide) rfl rfl (by decide)⟩

/-- Counterexample for C7 as claimed: a gzip pull encoder past its header
with the codec stream not yet consumed is changed by a zero-length read (its
`eof` flag flips and `pos` resets), refuting "leaves all state unchanged". -/
theorem claim_c7_zero_length_read_counterexample :
    GzEncoderM.read
      { header := [31, 139], pos := 2, eof := false, innerRem := [5],
        crcSum := 0, crcAmt := 0 } 0 ≠
    ([], { header := [31, 139], pos := 2, eof := false, innerRem := [5],
           crcSum := 0, crcAmt := 0 }) := by decide

/-- C8: once a single-member gzip decoder is finished (clean EOF: trailer
read and verified, `finished` set) with its payload drained, `finish` is a
no-op returning the state unchanged — so the trailer is read and verified at
most once — and every further read (two in a row shown) returns 0 bytes with
no error and the state unchanged. -/
theorem claim_c8_read_after_eof (s : GzDecoderM) (k1 k2 : Nat)
    (hf : s.finished = true) (hp : s.plain = []) :
    s.finish = .ok s ∧
    s.read k1 = .ok ([], s) ∧
    (s.read k1).bind (fun p => p.2.read k2) = .ok ([], s) := by
  refine ⟨GzDecoderM.finish_finished s hf, GzDecoderM.read_after_done s k1 hp hf, ?_⟩
  rw [GzDecoderM.read_after_done s k1 hp hf]
  exact GzDecoderM.read_after_done s k2 hp hf

/-- Witness for C8: a finished decoder with source bytes still behind it. -/
theorem claim_c8_read_after_eof_witness :
    ({ plain := [], rest := [4, 4], crc := Crc.new,
       header := { extra := Option.none, filename := Option.none,
                   comment := Option.none, mtime := 0 },
       finished := true } : GzDecoderM).finished = true ∧
    ({ plain := [], rest := [4, 4], crc := Crc.new,
       header := { extra := Option.none, filename := Option.none,
                   comment := Option.none, mtime := 0 },
       finished := true } : GzDecoderM).plain = [] ∧
    (GzDecoderM.finish
       { plain := [], rest := [4, 4], crc := Crc.new,
         header := { extra := Option.none, filename := Option.none,
                     comment := Option.none, mtime := 0 },
         finished := true } =
      .ok { plain := [], rest := [4, 4], crc := Crc.new,
            header := { extra := Option.none, filename := Option.none,
                        comment := Option.none, mtime := 0 },
            finished := true } ∧
     GzDecoderM.read
       { plain := [], rest := [4, 4], crc := Crc.new,
         header := { extra := Option.none, filename := Option.none,
                     comment := Option.none, mtime := 0 },
         finished := true } 3 =
      .ok ([], { plain := [], rest := [4, 4], crc := Crc.new,
                 header := { extra := Option.none, filename := Option.none,
                             comment := Option.none, mtime := 0 },
                 finished := true }) ∧
     (GzDecoderM.read
       { plain := [], rest := [4, 4], crc := Crc.new,
         header := { extra := Option.none, filename := Option.none,
                     comment := Option.none, mtime := 0 },
         finished := true } 3).bind (fun p => p.2.read 5) =
      .ok ([], { plain := [], rest := [4, 4], crc := Crc.new,
                 header := { extra := Option.none, filename := Option.none,
                             comment := Option.none, mtime := 0 },
                 finished := true })) :=
  ⟨rfl, rfl,
    claim_c8_read_after_eof
      { plain := [], rest := [4, 4], crc := Crc.new,
        header := { extra := Option.none, filename := Option.none,
                    comment := Option.none, mtime := 0 },
        finished := true } 3 5 rfl rfl⟩

/-- C9: a filename or comment value containing a NUL byte is rejected by the
builder (so it never reaches the emitted header), surfacing as the
`invalidArgument` condition (`CString::new(..).unwrap()` panics on interior
NUL). -/
theorem claim_c9_nul_rejected (b : Builder) (v : List Nat) (h : 0 ∈ v) :
    b.setFilename v = .error .invalidArgument ∧
    b.setComment v = .error .invalidArgument := by
  constructor <;>
    simp [Builder.setFilename, Builder.setComment, cstringNew, h, Except.map]

/-- Witness for C9: the value `[102, 0, 111]` holds a NUL and is rejected by
both setters. -/
theorem claim_c9_nul_rejected_witness :
    0 ∈ [102, 0, 111] ∧
    (Builder.new.setFilename [102, 0, 111] = .error .invalidArgument ∧
     Builder.new.setComment [102, 0, 111] = .error .invalidArgument) :=
  ⟨by decide, claim_c9_nul_rejected Builder.new [102, 0, 111] (by decide)⟩

/-- C10: when the FHCRC bit of the flag byte is clear, `read_gz_header` is
insensitive to header bytes 8 (xfl) and 9 (os): two streams differing only
there parse to identical results (same success/failure and same Header and
remainder on success). -/
theorem claim_c10_ignores_xfl_os (b0 b1 b2 b3 b4 b5 b6 b7 x y x' y' : Nat)
    (rest : List Nat) (hflg : b3 &&& FHCRC = 0) :
    read_gz_header
        (b0 :: b1 :: b2 :: b3 :: b4 :: b5 :: b6 :: b7 :: x :: y :: rest) =
      read_gz_header
        (b0 :: b1 :: b2 :: b3 :: b4 :: b5 :: b6 :: b7 :: x' :: y' :: rest) :=
  read_gz_header_ignores_xfl_os b0 b1 b2 b3 b4 b5 b6 b7 x y x' y' rest hflg

set_option maxRecDepth 10000 in
/-- Witness for C10: the same headerless stream with xfl/os pairs `(9, 9)`
and `(0, 255)` parses identically. -/
theorem claim_c10_ignores_xfl_os_witness :
    (0 : Nat) &&& FHCRC = 0 ∧
    read_gz_header [0x1f, 0x8b, 8, 0, 0, 0, 0, 0, 9, 9] =
      read_gz_header [0x1f, 0x8b, 8, 0, 0, 0, 0, 0, 0, 255] :=
  ⟨by decide,
    claim_c10_ignores_xfl_os 0x1f 0x8b 8 0 0 0 0 0 9 9 0 255 [] (by decide)⟩

end Flate
